import Mathlib

/-!
lua-casclib: storage / file / finder wrappers over the CASC archive engine.

A shallow embedding of `common.c`, `registry.c`, `storage.c`, `file.c` and
`finder.c`.

* The archive engine (`CascLib`) is external: it is a record `Engine σ` of
  native calls over an abstract engine state `σ`.  Every call returns its
  value, the next engine state and, when the call stored an error code, that
  code (`SetLastError`).
* Constants of `CascPort.h` / `luaconf.h` and the two host library functions
  the code calls (`strerror`, `string.find`) are the fields of `Port`.
* The Lua state is the `World`: the storage userdata, the file and finder
  userdata created from it (addressed by creation index), the registry table
  kept in `LUA_REGISTRYINDEX` under the storage handle, and the thread's
  last-error cell.
* Loops whose length depends on the engine take a `fuel` bound; running out of
  fuel is the result `Stop.diverge`.  Undefined behaviour of the C code (a NULL
  dereference, indexing a registry slot that holds `nil`) is `Stop.fault`.
-/

namespace Casclib

/-! ## Values and platform -/

/-- Native handles are pointers; `0` is `NULL`. -/
abbrev HANDLE := Nat

/-- Lua strings and file contents are byte strings. -/
abbrev Bytes := List Char

/-- Constants and host functions that the sources use but do not define. -/
structure Port where
  /-- The constant `ERROR_SUCCESS` of `CascPort.h`. -/
  ERROR_SUCCESS : Nat
  /-- The constant `ERROR_INVALID_HANDLE` of `CascPort.h`. -/
  ERROR_INVALID_HANDLE : Nat
  /-- The constant `LUAL_BUFFERSIZE` of `luaconf.h`: the chunk size of `luaL_Buffer`. -/
  LUAL_BUFFERSIZE : Nat
  /-- The function `strerror` of the C library. -/
  strerror : Nat → Bytes
  /-- Whether `string.find (name, pattern, nil, plain)` is not `nil`. -/
  string_find : Bytes → Bytes → Bool → Bool

/-- The `whence` of `CascSetFilePointer64`, as selected by `file:seek`. -/
inductive Whence
  | FILE_BEGIN
  | FILE_CURRENT
  | FILE_END
  deriving DecidableEq, Repr

/-- A format argument of `file:read` / `file:lines`. -/
inductive Arg
  | number (n : Int)
  | string (s : Bytes)
  deriving DecidableEq, Repr

/-- The Lua values that the module returns. -/
inductive LuaValue
  | nil
  | boolean (b : Bool)
  | integer (n : Int)
  | string (s : Bytes)
  | storage
  | file (i : Nat)
  | finder_iterator (j : Nat) (pattern : Option Bytes) (plain : Bool)
  | lines_iterator (i : Nat) (formats : List Arg)
  deriving DecidableEq, Repr

/-- How a Lua C function ends: it returns values, or raises a Lua error. -/
inductive Ret
  | values (vs : List LuaValue)
  | raise (msg : Bytes)
  deriving DecidableEq, Repr

/-- Why a call does not come back to Lua at all. -/
inductive Stop
  | fault
  | diverge
  deriving DecidableEq, Repr

abbrev Res (α : Type) := Except Stop α

/-- The function `lua_toboolean`: everything but `nil` and `false` is true. -/
def lua_toboolean : LuaValue → Bool
  | .nil => false
  | .boolean b => b
  | _ => true

/-- The function `lua_tostring` on the values the module handles; `NULL` shows as in `%s`. -/
def lua_tostring : LuaValue → Bytes
  | .string s => s
  | .integer n => (toString n).toList
  | _ => "(null)".toList

/-- The C truth value of a status. -/
def cint (b : Bool) : Int := if b then 1 else 0

/-! ## The archive engine -/

/-- Result of one native call. -/
structure Call (σ : Type) (α : Type) where
  /-- What the call returned (and wrote through its out-parameters). -/
  val : α
  /-- The error code stored by the call, if it stored one. -/
  err : Option Nat
  /-- The engine state after the call. -/
  next : σ

/-- The native calls used by the module. -/
structure Engine (σ : Type) where
  CascOpenStorageEx : σ → Bytes → Nat → Call σ (Bool × HANDLE)
  CascCloseStorage : σ → HANDLE → Call σ Bool
  CascOpenFile : σ → HANDLE → Bytes → Call σ (Bool × HANDLE)
  CascCloseFile : σ → HANDLE → Call σ Bool
  /-- The call `CascReadFile (h, buffer, n, &bytes_read)`: status and the bytes stored. -/
  CascReadFile : σ → HANDLE → Nat → Call σ (Bool × Bytes)
  CascGetFileSize64 : σ → HANDLE → Call σ (Bool × Nat)
  CascSetFilePointer64 : σ → HANDLE → Int → Whence → Call σ (Bool × Nat)
  /-- The call `CascFindFirstFile`: the cursor (`0` on failure) and `data.szFileName`. -/
  CascFindFirstFile : σ → HANDLE → Call σ (HANDLE × Bytes)
  /-- The call `CascFindNextFile`: status and `data.szFileName`. -/
  CascFindNextFile : σ → HANDLE → Call σ (Bool × Bytes)
  CascFindClose : σ → HANDLE → Call σ Bool

/-! ## The Lua state -/

/-- A userdata tracked by the registry. -/
inductive Obj
  | file (i : Nat)
  | finder (j : Nat)
  deriving DecidableEq, Repr

structure CASC_Storage where
  handle : HANDLE
  deriving DecidableEq, Repr

/-- The record `struct CASC_File`; `storage` is false when the pointer is `NULL`. -/
structure CASC_File where
  handle : HANDLE
  storage : Bool
  deriving DecidableEq, Repr

/-- The record `struct CASC_Finder`; `storage` is false when the pointer is `NULL`. -/
structure CASC_Finder where
  handle : HANDLE
  storage : Bool
  deriving DecidableEq, Repr

/-- A registry table: child handle (light userdata key) to userdata. -/
abbrev Table := List (HANDLE × Obj)

/-- The function `lua_rawgetp (L, table, k)`. -/
def Table.rawget : Table → HANDLE → Option Obj
  | [], _ => none
  | (k', v) :: t, k => if k' = k then some v else Table.rawget t k

/-- The function `lua_rawsetp (L, table, k)` of a value or of `nil`. -/
def Table.rawset (t : Table) (k : HANDLE) (v : Option Obj) : Table :=
  match v with
  | none => t.filter (fun e => decide (e.1 ≠ k))
  | some o => (k, o) :: t.filter (fun e => decide (e.1 ≠ k))

/-- The state shared by the wrappers of one storage. -/
structure World (σ : Type) where
  /-- State of the archive engine. -/
  eng : σ
  /-- The cell behind `GetLastError` / `SetLastError` / `GetCascError`. -/
  lastError : Nat
  /-- The storage userdata. -/
  storage : CASC_Storage
  /-- The file userdata created from the storage, by creation index. -/
  files : List CASC_File
  /-- The finder userdata created from the storage, by creation index. -/
  finders : List CASC_Finder
  /-- The slot of `LUA_REGISTRYINDEX` under the storage handle; `none` is `nil`. -/
  registry : Option Table

/-- Perform a native call: the engine moves on, an error code is stored. -/
def World.native {σ α : Type} (w : World σ) (c : Call σ α) : World σ × α :=
  ({ w with eng := c.next, lastError := c.err.getD w.lastError }, c.val)

/-- The function `SetLastError`. -/
def World.SetLastError {σ : Type} (w : World σ) (e : Nat) : World σ :=
  { w with lastError := e }

/-! ## common.c -/

/-- The function `casc_result (L, status)`: the values pushed, given the last error. -/
def casc_result (P : Port) (lastError : Nat) (status : Int) : List LuaValue :=
  let error := lastError
  if status ≠ 0 ∨ error = P.ERROR_SUCCESS then
    [.boolean (decide (status ≠ 0))]
  else
    [.nil, .string (P.strerror error), .integer error]

/-! ## registry.c -/

/-- The function `casc_registry_open`: a fresh table in the storage's registry slot. -/
def casc_registry_open {σ : Type} (w : World σ) : World σ :=
  { w with registry := some [] }

/-- The function `registry_insert`: `storage` is false when `->storage` is `NULL`. -/
def registry_insert {σ : Type} (w : World σ) (storage : Bool) (handle : HANDLE)
    (o : Obj) : Res (World σ) :=
  if storage then
    match w.registry with
    | none => .error .fault
    | some t => .ok { w with registry := some (t.rawset handle (some o)) }
  else .error .fault

/-- The function `registry_remove`: `storage` is false when `->storage` is `NULL`. -/
def registry_remove {σ : Type} (w : World σ) (storage : Bool) (handle : HANDLE) :
    Res (World σ) :=
  if storage then
    match w.registry with
    | none => .error .fault
    | some t => .ok { w with registry := some (t.rawset handle none) }
  else .error .fault

def casc_registry_insert_file {σ : Type} (w : World σ) (i : Nat) : Res (World σ) :=
  match w.files[i]? with
  | none => .error .fault
  | some file => registry_insert w file.storage file.handle (.file i)

def casc_registry_insert_finder {σ : Type} (w : World σ) (j : Nat) : Res (World σ) :=
  match w.finders[j]? with
  | none => .error .fault
  | some finder => registry_insert w finder.storage finder.handle (.finder j)

def casc_registry_remove_file {σ : Type} (w : World σ) (file : CASC_File) :
    Res (World σ) :=
  registry_remove w file.storage file.handle

def casc_registry_remove_finder {σ : Type} (w : World σ) (finder : CASC_Finder) :
    Res (World σ) :=
  registry_remove w finder.storage finder.handle

/-! ## file.c: close and the stubs -/

/-- The error raised by `luaL_checkudata` on a value of the wrong type. -/
def bad_argument : Bytes := "bad argument".toList

/-- The method `file:close ()`, also the `__gc` of a file. -/
def file_close {σ : Type} (P : Port) (E : Engine σ) (w : World σ) (i : Nat) :
    Res (World σ × Ret) :=
  match w.files[i]? with
  | none => .ok (w, .raise bad_argument)
  | some file =>
    if file.handle = 0 then
      let w1 := w.SetLastError P.ERROR_INVALID_HANDLE
      let w2 := { w1 with files := w1.files.set i { file with handle := 0 } }
      .ok (w2, .values (casc_result P w2.lastError 0))
    else
      match casc_registry_remove_file w file with
      | .error e => .error e
      | .ok w1 =>
        let r := w1.native (E.CascCloseFile w1.eng file.handle)
        let w2 := { r.1 with files := r.1.files.set i { handle := 0, storage := false } }
        .ok (w2, .values (casc_result P w2.lastError (cint r.2)))

/-- The method `file:write (...)`; the arguments after the file are not read. -/
def file_write {σ : Type} (P : Port) (w : World σ) (i : Nat) (_args : List LuaValue) :
    World σ × Ret :=
  match w.files[i]? with
  | none => (w, .raise bad_argument)
  | some _ =>
    let w1 := w.SetLastError P.ERROR_INVALID_HANDLE
    (w1, .values (casc_result P w1.lastError 0))

/-- The method `file:setvbuf ()`. -/
def file_setvbuf {σ : Type} (P : Port) (w : World σ) (i : Nat) : World σ × Ret :=
  match w.files[i]? with
  | none => (w, .raise bad_argument)
  | some file =>
    if file.handle = 0 then
      let w1 := w.SetLastError P.ERROR_INVALID_HANDLE
      (w1, .values (casc_result P w1.lastError 0))
    else (w, .values (casc_result P w.lastError 1))

/-- The method `file:flush ()`. -/
def file_flush {σ : Type} (P : Port) (w : World σ) (i : Nat) : World σ × Ret :=
  match w.files[i]? with
  | none => (w, .raise bad_argument)
  | some file =>
    if file.handle = 0 then
      let w1 := w.SetLastError P.ERROR_INVALID_HANDLE
      (w1, .values (casc_result P w1.lastError 0))
    else (w, .values (casc_result P w.lastError 1))

/-- The method `file:seek ([whence [, offset]])`, after the two arguments were checked. -/
def file_seek {σ : Type} (P : Port) (E : Engine σ) (w : World σ) (i : Nat)
    (mode : Whence) (offset : Int) : World σ × Ret :=
  match w.files[i]? with
  | none => (w, .raise bad_argument)
  | some file =>
    if file.handle = 0 then
      let w1 := w.SetLastError P.ERROR_INVALID_HANDLE
      (w1, .values (casc_result P w1.lastError 0))
    else
      let r := w.native (E.CascSetFilePointer64 w.eng file.handle offset mode)
      if r.2.1 then (r.1, .values [.integer (Int.ofNat r.2.2)])
      else (r.1, .values (casc_result P r.1.lastError 0))

/-! ## file.c: reading -/

/-- Locals of `read_line`, with the contents of the `luaL_Buffer`. -/
structure LineState (σ : Type) where
  w : World σ
  character : Char
  status : Bool
  error : Nat
  line : Bytes

/-- The inner loop of `read_line`; the counter is `LUAL_BUFFERSIZE - index`.
The bytes stored at `buffer [index++]` are appended to the line at once. -/
def read_line_chunk {σ : Type} (E : Engine σ) (h : HANDLE) :
    Nat → LineState σ → LineState σ
  | 0, st => st
  | k + 1, st =>
    let r := st.w.native (E.CascReadFile st.w.eng h 1)
    let character := r.2.2.headD st.character
    let error := r.1.lastError
    if r.2.1 = false ∨ r.2.2.length = 0 ∨ character = '\n' then
      { w := r.1, character := character, status := false, error := error,
        line := st.line }
    else
      read_line_chunk E h k
        { w := r.1, character := character, status := true, error := error,
          line := st.line ++ [character] }

/-- The outer loop of `read_line`. -/
def read_line_loop {σ : Type} (P : Port) (E : Engine σ) (h : HANDLE) :
    Nat → LineState σ → Res (LineState σ)
  | fuel, st =>
    if st.status = true ∧ st.character ≠ '\n' then
      match fuel with
      | 0 => .error .diverge
      | fuel + 1 =>
        read_line_loop P E h fuel (read_line_chunk E h P.LUAL_BUFFERSIZE st)
    else .ok st

/-- The function `read_line (L, file, chop)`: the world, the string pushed, the status.
The local `error` is not initialised; it is written before it is read. -/
def read_line {σ : Type} (P : Port) (E : Engine σ) (fuel : Nat) (w : World σ)
    (h : HANDLE) (chop : Bool) : Res (World σ × Bytes × Bool) :=
  match read_line_loop P E h fuel
      { w := w, character := Char.ofNat 0, status := true, error := 0, line := [] } with
  | .error e => .error e
  | .ok st =>
    let line := if chop = false ∧ st.character = '\n' then st.line ++ [st.character]
                else st.line
    .ok (st.w.SetLastError st.error, line, st.status)

/-- The loop of `read_characters`: world, `count`, `status`, `error`, buffer. -/
def read_characters_loop {σ : Type} (P : Port) (E : Engine σ) (h : HANDLE) :
    Nat → World σ → Nat → Bool → Nat → Bytes → Res (World σ × Bool × Nat × Bytes)
  | fuel, w, count, status, error, buf =>
    if count > 0 ∧ status = true then
      match fuel with
      | 0 => .error .diverge
      | fuel + 1 =>
        let bytes_to_read :=
          if count > P.LUAL_BUFFERSIZE then P.LUAL_BUFFERSIZE else count
        let count := count - bytes_to_read
        let r := w.native (E.CascReadFile w.eng h bytes_to_read)
        let error := r.1.lastError
        if r.2.1 = false ∨ r.2.2.length = 0 then
          .ok (r.1, false, error, buf)
        else
          read_characters_loop P E h fuel r.1 count true error (buf ++ r.2.2)
    else .ok (w, status, error, buf)

/-- The function `read_characters (L, file, count)`: the world, the string pushed, the status. -/
def read_characters {σ : Type} (P : Port) (E : Engine σ) (fuel : Nat) (w : World σ)
    (h : HANDLE) (count : Nat) : Res (World σ × Bytes × Bool) :=
  match read_characters_loop P E h fuel w count true P.ERROR_SUCCESS [] with
  | .error e => .error e
  | .ok (w1, status, error, buf) => .ok (w1.SetLastError error, buf, status)

/-- Locals of the format loop of `file_read`; `stack` has the top first. -/
structure ReadState (σ : Type) where
  w : World σ
  status : Bool
  stack : List Bytes

/-- The cast `(lua_Unsigned) count` for a 64-bit `lua_Integer`. -/
def lua_Unsigned (n : Int) : Nat := (n % 2 ^ 64).toNat

/-- The `for` loop of `file_read` over the remaining formats; an invalid
format ends the call with `luaL_argerror`. -/
def file_read_loop {σ : Type} (P : Port) (E : Engine σ) (fuel : Nat) (h : HANDLE)
    (size : Nat) : List Arg → ReadState σ → Res (World σ × Except Bytes (ReadState σ))
  | [], st => .ok (st.w, .ok st)
  | a :: rest, st =>
    if st.status = false then .ok (st.w, .ok st)
    else
      match a with
      | .number count =>
        match read_characters P E fuel st.w h (lua_Unsigned count) with
        | .error e => .error e
        | .ok (w1, s, status) =>
          file_read_loop P E fuel h size rest
            { w := w1, status := status, stack := s :: st.stack }
      | .string format =>
        let format := if format.head? = some '*' then format.tail else format
        match format.head? with
        | some 'l' =>
          match read_line P E fuel st.w h true with
          | .error e => .error e
          | .ok (w1, s, status) =>
            file_read_loop P E fuel h size rest
              { w := w1, status := status, stack := s :: st.stack }
        | some 'L' =>
          match read_line P E fuel st.w h false with
          | .error e => .error e
          | .ok (w1, s, status) =>
            file_read_loop P E fuel h size rest
              { w := w1, status := status, stack := s :: st.stack }
        | some 'a' =>
          match read_characters P E fuel st.w h size with
          | .error e => .error e
          | .ok (w1, s, _) =>
            file_read_loop P E fuel h size rest
              { w := w1, status := st.status, stack := s :: st.stack }
        | _ => .ok (st.w, .error "invalid format".toList)

/-- The results of `file_read` after the loop: all strings pushed, the last
replaced by `nil` when it is empty and the status is `0`. -/
def file_read_results (status : Bool) (stack : List Bytes) : List LuaValue :=
  match stack with
  | [] => []
  | top :: below =>
    if status = false ∧ top.length = 0 then
      (below.reverse.map LuaValue.string) ++ [.nil]
    else (stack.reverse.map LuaValue.string)

/-- The method `file:read (...)`. -/
def file_read {σ : Type} (P : Port) (E : Engine σ) (fuel : Nat) (w : World σ)
    (i : Nat) (formats : List Arg) : Res (World σ × Ret) :=
  match w.files[i]? with
  | none => .ok (w, .raise bad_argument)
  | some file =>
    if file.handle = 0 then
      let w1 := w.SetLastError P.ERROR_INVALID_HANDLE
      .ok (w1, .values (casc_result P w1.lastError 0))
    else
      let r := w.native (E.CascGetFileSize64 w.eng file.handle)
      if r.2.1 = false then .ok (r.1, .values (casc_result P r.1.lastError 0))
      else
        let size := r.2.2
        let formats := match formats with
          | [] => [Arg.string ['l']]
          | _ => formats
        let w1 := r.1.SetLastError P.ERROR_SUCCESS
        match file_read_loop P E fuel file.handle size formats
            { w := w1, status := true, stack := [] } with
        | .error e => .error e
        | .ok (w2, .error msg) => .ok (w2, .raise msg)
        | .ok (w2, .ok st) =>
          if st.status = false ∧ w2.lastError ≠ P.ERROR_SUCCESS then
            .ok (w2, .values (casc_result P w2.lastError 0))
          else .ok (w2, .values (file_read_results st.status st.stack))

/-- The function `lines_iterator`: one step of the closure made by `file:lines`. -/
def lines_iterator {σ : Type} (P : Port) (E : Engine σ) (fuel : Nat) (w : World σ)
    (i : Nat) (formats : List Arg) : Res (World σ × Ret) :=
  match w.files[i]? with
  | none => .ok (w, .raise bad_argument)
  | some file =>
    if file.handle = 0 then
      let w1 := w.SetLastError P.ERROR_INVALID_HANDLE
      let results := casc_result P w1.lastError 0
      if results.length > 1 then .ok (w1, .raise (lua_tostring (results.getD 1 .nil)))
      else .ok (w1, .values [])
    else
      match file_read P E fuel w i formats with
      | .error e => .error e
      | .ok (w1, .raise msg) => .ok (w1, .raise msg)
      | .ok (w1, .values vs) =>
        if lua_toboolean (vs.headD .nil) = true then .ok (w1, .values vs)
        else
          let results := if vs.length = 0 then casc_result P w1.lastError 0 else vs
          if results.length > 1 then
            .ok (w1, .raise (lua_tostring (results.getD 1 .nil)))
          else .ok (w1, .values [])

/-- The constant `LINES_MAXIMUM_ARGUMENTS`. -/
def LINES_MAXIMUM_ARGUMENTS : Nat := 250

/-- The method `file:lines (...)`. -/
def file_lines {σ : Type} (P : Port) (w : World σ) (i : Nat) (formats : List Arg) :
    World σ × Ret :=
  match w.files[i]? with
  | none => (w, .raise bad_argument)
  | some file =>
    if file.handle = 0 then
      let w1 := w.SetLastError P.ERROR_INVALID_HANDLE
      (w1, .values (casc_result P w1.lastError 0))
    else if formats.length ≤ LINES_MAXIMUM_ARGUMENTS then
      (w, .values [.lines_iterator i formats])
    else (w, .raise "too many arguments".toList)

/-- The function `casc_file_initialize (L, storage, name)`. -/
def casc_file_initialize {σ : Type} (P : Port) (E : Engine σ) (w : World σ)
    (name : Bytes) : Res (World σ × Ret) :=
  let r := w.native (E.CascOpenFile w.eng w.storage.handle name)
  if r.2.1 = false then .ok (r.1, .values (casc_result P r.1.lastError 0))
  else
    let i := r.1.files.length
    let w1 := { r.1 with files := r.1.files ++ [{ handle := r.2.2, storage := true }] }
    match casc_registry_insert_file w1 i with
    | .error e => .error e
    | .ok w2 => .ok (w2, .values [.file i])

/-! ## finder.c -/

/-- The function `finder_close`, the `__gc` of a finder. -/
def finder_close {σ : Type} (P : Port) (E : Engine σ) (w : World σ) (j : Nat) :
    Res (World σ × Ret) :=
  match w.finders[j]? with
  | none => .ok (w, .raise bad_argument)
  | some finder =>
    if finder.handle = 0 then
      let w1 := w.SetLastError P.ERROR_INVALID_HANDLE
      .ok (w1, .values (casc_result P w1.lastError 0))
    else
      match casc_registry_remove_finder w finder with
      | .error e => .error e
      | .ok w1 =>
        let r := w1.native (E.CascFindClose w1.eng finder.handle)
        let w2 := { r.1 with finders := r.1.finders.set j { finder with handle := 0 } }
        .ok (w2, .values (casc_result P w2.lastError (cint r.2)))

/-- The `while (true)` loop of `finder_iterator`: the world, `status` and the
name pushed, if one was. -/
def finder_iterator_loop {σ : Type} (P : Port) (E : Engine σ) (j : Nat)
    (pattern : Option Bytes) (plain : Bool) :
    Nat → World σ → Res (World σ × Bool × Option Bytes)
  | 0, _ => .error .diverge
  | fuel + 1, w =>
    match w.finders[j]? with
    | none => .error .fault
    | some finder =>
      let opened : Res (World σ × Bool × Bytes) :=
        if finder.handle = 0 then
          let r := w.native (E.CascFindFirstFile w.eng w.storage.handle)
          let w1 := { r.1 with finders := r.1.finders.set j { finder with handle := r.2.1 } }
          -- `status = !!finder`: the userdata pointer, which is never NULL
          match casc_registry_insert_finder w1 j with
          | .error e => .error e
          | .ok w2 => .ok (w2, true, r.2.2)
        else
          let r := w.native (E.CascFindNextFile w.eng finder.handle)
          .ok (r.1, r.2.1, r.2.2)
      match opened with
      | .error e => .error e
      | .ok (w1, status, name) =>
        if status = false then .ok (w1, false, none)
        else
          let status := match pattern with
            | none => status
            | some p => P.string_find name p plain
          if status = true then .ok (w1, true, some name)
          else finder_iterator_loop P E j pattern plain fuel w1

/-- The function `finder_iterator`: one step of the closure made by `casc:files`. -/
def finder_iterator {σ : Type} (P : Port) (E : Engine σ) (fuel : Nat) (w : World σ)
    (j : Nat) (pattern : Option Bytes) (plain : Bool) : Res (World σ × Ret) :=
  match w.finders[j]? with
  | none => .ok (w, .raise bad_argument)
  | some _ =>
    match finder_iterator_loop P E j pattern plain fuel w with
    | .error e => .error e
    | .ok (w1, true, name) =>
      .ok (w1, .values (match name with
        | some n => [.string n]
        | none => []))
    | .ok (w1, false, _) =>
      let error := w1.lastError
      match finder_close P E w1 j with
      | .error e => .error e
      | .ok (w2, _) =>
        if error = P.ERROR_SUCCESS then .ok (w2, .values [])
        else
          let w3 := w2.SetLastError error
          let results := casc_result P w3.lastError 0
          .ok (w3, .raise (lua_tostring (results.getD 1 .nil)))

/-- The function `casc_finder_initialize (L, storage, pattern, plain)`. -/
def casc_finder_initialize {σ : Type} (w : World σ) (pattern : Option Bytes)
    (plain : Bool) : World σ × Ret :=
  let j := w.finders.length
  ({ w with finders := w.finders ++ [{ handle := 0, storage := true }] },
    .values [.finder_iterator j pattern plain])

/-! ## storage.c -/

/-- The method `casc:files ([pattern [, plain]])`. -/
def storage_files {σ : Type} (P : Port) (w : World σ) (pattern : Option Bytes)
    (plain : Bool) : World σ × Ret :=
  if w.storage.handle = 0 then
    let w1 := w.SetLastError P.ERROR_INVALID_HANDLE
    (w1, .values (casc_result P w1.lastError 0))
  else casc_finder_initialize w pattern plain

/-- The method `casc:open (name [, mode])`, after the mode was checked. -/
def storage_open {σ : Type} (P : Port) (E : Engine σ) (w : World σ) (name : Bytes) :
    Res (World σ × Ret) :=
  if w.storage.handle = 0 then
    let w1 := w.SetLastError P.ERROR_INVALID_HANDLE
    .ok (w1, .values (casc_result P w1.lastError 0))
  else casc_file_initialize P E w name

/-- The `__gc` metamethod of a tracked userdata. -/
def gc {σ : Type} (P : Port) (E : Engine σ) (w : World σ) : Obj → Res (World σ × Ret)
  | .file i => file_close P E w i
  | .finder j => finder_close P E w j

/-- The `lua_next` loop of `casc_registry_close` over the keys of the table,
in table order.  A key whose entry was cleared meanwhile is skipped; an error
raised by a `__gc` leaves the loop. -/
def casc_registry_close_loop {σ : Type} (P : Port) (E : Engine σ) :
    List HANDLE → World σ → Res (World σ × Option Bytes)
  | [], w => .ok (w, none)
  | k :: keys, w =>
    match w.registry with
    | none => .error .fault
    | some t =>
      match t.rawget k with
      | none => casc_registry_close_loop P E keys w
      | some o =>
        match gc P E w o with
        | .error e => .error e
        | .ok (w1, .raise msg) => .ok (w1, some msg)
        | .ok (w1, .values _) => casc_registry_close_loop P E keys w1

/-- The function `casc_registry_close (L, storage)`. -/
def casc_registry_close {σ : Type} (P : Port) (E : Engine σ) (w : World σ) :
    Res (World σ × Option Bytes) :=
  match w.registry with
  | none => .error .fault
  | some t =>
    match casc_registry_close_loop P E (t.map Prod.fst) w with
    | .error e => .error e
    | .ok (w1, some msg) => .ok (w1, some msg)
    | .ok (w1, none) => .ok ({ w1 with registry := none }, none)

/-- The method `casc:close ()`, also the `__gc` of a storage. -/
def storage_close {σ : Type} (P : Port) (E : Engine σ) (w : World σ) :
    Res (World σ × Ret) :=
  if w.storage.handle = 0 then
    let w1 := w.SetLastError P.ERROR_INVALID_HANDLE
    .ok (w1, .values (casc_result P w1.lastError 0))
  else
    match casc_registry_close P E w with
    | .error e => .error e
    | .ok (w1, some msg) => .ok (w1, .raise msg)
    | .ok (w1, none) =>
      let r := w1.native (E.CascCloseStorage w1.eng w1.storage.handle)
      let w2 := { r.1 with storage := { handle := 0 } }
      .ok (w2, .values (casc_result P w2.lastError (cint r.2)))

/-- The function `casc_storage_initialize`: the world after `casclib.open` on a fresh Lua
state with engine state `s` and last error `e`. -/
def casc_storage_initialize {σ : Type} (P : Port) (E : Engine σ) (s : σ) (e : Nat)
    (path : Bytes) (type : Nat) : World σ × Ret :=
  let w : World σ :=
    { eng := s, lastError := e, storage := { handle := 0 }, files := [],
      finders := [], registry := none }
  let r := w.native (E.CascOpenStorageEx w.eng path type)
  if r.2.1 = false then (r.1, .values (casc_result P r.1.lastError 0))
  else
    (casc_registry_open { r.1 with storage := { handle := r.2.2 } },
      .values [.storage])

/-! ## Sequences of calls and the registry invariant -/

/-- The calls on a storage that create and release its children. -/
inductive Op
  | openFile (name : Bytes)
  | files (pattern : Option Bytes) (plain : Bool)
  | step (j : Nat) (pattern : Option Bytes) (plain : Bool)
  | closeFile (i : Nat)
  deriving DecidableEq, Repr

/-- Perform one call. -/
def Op.run {σ : Type} (P : Port) (E : Engine σ) (fuel : Nat) (w : World σ) :
    Op → Res (World σ × Ret)
  | .openFile name => storage_open P E w name
  | .files pattern plain => .ok (storage_files P w pattern plain)
  | .step j pattern plain => finder_iterator P E fuel w j pattern plain
  | .closeFile i => file_close P E w i

/-- Perform a sequence of calls, whatever each of them returns or raises. -/
def run {σ : Type} (P : Port) (E : Engine σ) (fuel : Nat) :
    List Op → World σ → Res (World σ)
  | [], w => .ok w
  | op :: ops, w =>
    match op.run P E fuel w with
    | .error e => .error e
    | .ok (w1, _) => run P E fuel ops w1

/-- The methods of a file that the cascade must disable. -/
inductive FileCall
  | seek (mode : Whence) (offset : Int)
  | read (formats : List Arg)
  | setvbuf
  | flush
  | close
  deriving DecidableEq, Repr

/-- Call a method on file `i`. -/
def FileCall.run {σ : Type} (P : Port) (E : Engine σ) (fuel : Nat) (w : World σ)
    (i : Nat) : FileCall → Res (World σ × Ret)
  | .seek mode offset => .ok (file_seek P E w i mode offset)
  | .read formats => file_read P E fuel w i formats
  | .setvbuf => .ok (file_setvbuf P w i)
  | .flush => .ok (file_flush P w i)
  | .close => file_close P E w i

/-- Call methods on files one after the other; the results in order. -/
def file_calls {σ : Type} (P : Port) (E : Engine σ) (fuel : Nat) :
    List (Nat × FileCall) → World σ → Res (World σ × List Ret)
  | [], w => .ok (w, [])
  | (i, c) :: cs, w =>
    match c.run P E fuel w i with
    | .error e => .error e
    | .ok (w1, r) =>
      match file_calls P E fuel cs w1 with
      | .error e => .error e
      | .ok (w2, rs) => .ok (w2, r :: rs)

/-- The error triple of an operation on a closed object. -/
def invalid_handle (P : Port) : Ret :=
  .values [.nil, .string (P.strerror P.ERROR_INVALID_HANDLE),
    .integer P.ERROR_INVALID_HANDLE]

/-- What the wrappers rely on from the engine: a handle it hands out is not
held by any open object (`live` is the set of handles in use), it is in use
afterwards, and no call takes another handle out of use. -/
structure EngineLaws {σ : Type} (E : Engine σ) (live : σ → HANDLE → Prop) : Prop where
  open_fresh : ∀ s sh name, (E.CascOpenFile s sh name).val.1 = true →
    ¬ live s (E.CascOpenFile s sh name).val.2 ∧
    live (E.CascOpenFile s sh name).next (E.CascOpenFile s sh name).val.2
  open_keeps : ∀ s sh name h, live s h → live (E.CascOpenFile s sh name).next h
  close_keeps : ∀ s h h', h' ≠ h → live s h' → live (E.CascCloseFile s h).next h'
  first_fresh : ∀ s sh, (E.CascFindFirstFile s sh).val.1 ≠ 0 →
    ¬ live s (E.CascFindFirstFile s sh).val.1 ∧
    live (E.CascFindFirstFile s sh).next (E.CascFindFirstFile s sh).val.1
  first_keeps : ∀ s sh h, live s h → live (E.CascFindFirstFile s sh).next h
  next_keeps : ∀ s h h', live s h' → live (E.CascFindNextFile s h).next h'
  find_close_keeps : ∀ s h h', h' ≠ h → live s h' → live (E.CascFindClose s h).next h'

/-- The registry invariant: the registry table `t` exists, every open child
is registered under its handle, which is in use, every entry for a file is
under the handle of that file, and every entry for a finder refers to a
finder that exists. -/
structure Tracked {σ : Type} (live : σ → HANDLE → Prop) (w : World σ) (t : Table) :
    Prop where
  reg : w.registry = some t
  file_ok : ∀ (i : Nat) (file : CASC_File), w.files[i]? = some file → file.handle ≠ 0 →
    file.storage = true ∧ t.rawget file.handle = some (.file i) ∧
    live w.eng file.handle
  finder_ok : ∀ (j : Nat) (finder : CASC_Finder), w.finders[j]? = some finder →
    finder.storage = true ∧
    (finder.handle ≠ 0 →
      t.rawget finder.handle = some (.finder j) ∧ live w.eng finder.handle)
  entry_file : ∀ k i, t.rawget k = some (.file i) →
    ∃ file : CASC_File, w.files[i]? = some file ∧ file.handle = k
  entry_finder : ∀ k j, t.rawget k = some (.finder j) → j < w.finders.length

/-- Every file and finder is closed. -/
def AllClosed {σ : Type} (w : World σ) : Prop :=
  (∀ (i : Nat) (file : CASC_File), w.files[i]? = some file → file.handle = 0) ∧
  (∀ (j : Nat) (finder : CASC_Finder), w.finders[j]? = some finder → finder.handle = 0)

/-! ## Reference engines -/

/-- An engine whose every call fails and stores no error code. -/
def nullEngine (σ : Type) : Engine σ where
  CascOpenStorageEx := fun s _ _ => { val := (false, 0), err := none, next := s }
  CascCloseStorage := fun s _ => { val := false, err := none, next := s }
  CascOpenFile := fun s _ _ => { val := (false, 0), err := none, next := s }
  CascCloseFile := fun s _ => { val := false, err := none, next := s }
  CascReadFile := fun s _ _ => { val := (false, []), err := none, next := s }
  CascGetFileSize64 := fun s _ => { val := (false, 0), err := none, next := s }
  CascSetFilePointer64 := fun s _ _ _ => { val := (false, 0), err := none, next := s }
  CascFindFirstFile := fun s _ => { val := (0, []), err := none, next := s }
  CascFindNextFile := fun s _ => { val := (false, []), err := none, next := s }
  CascFindClose := fun s _ => { val := false, err := none, next := s }

/-- One open archive entry: its bytes and the read position. -/
structure Stream where
  content : Bytes
  pos : Nat
  deriving DecidableEq, Repr

/-- The bytes a read of `n` bytes delivers: at most `n`, at most what remains. -/
def Stream.peek (s : Stream) (n : Nat) : Bytes := (s.content.drop s.pos).take n

/-- An engine serving one entry: every read succeeds, delivers
`min (requested, remaining)` bytes, and stores no error code. -/
def streamEngine : Engine Stream :=
  { nullEngine Stream with
    CascReadFile := fun s _ n =>
      { val := (true, s.peek n), err := none,
        next := { s with pos := s.pos + (s.peek n).length } }
    CascGetFileSize64 := fun s _ =>
      { val := (true, s.content.length), err := none, next := s } }

/-- An engine whose reads fail with error code `code`; the size query works. -/
def failingEngine (code : Nat) : Engine Stream :=
  { nullEngine Stream with
    CascReadFile := fun s _ _ => { val := (false, []), err := some code, next := s }
    CascGetFileSize64 := fun s _ =>
      { val := (true, s.content.length), err := none, next := s } }

/-- A world with one open file (handle `7`) on an open storage (handle `1`). -/
def streamWorld (content : Bytes) (pos : Nat) : World Stream :=
  { eng := { content := content, pos := pos }, lastError := 0,
    storage := { handle := 1 }, files := [{ handle := 7, storage := true }],
    finders := [], registry := some [(7, .file 0)] }

/-- The generic `for` loop over the iterator of `casc:files`: call the
iterator until a call yields no name; the names yielded and how the last call
ended.  At most `n` calls are made. -/
def finder_collect {σ : Type} (P : Port) (E : Engine σ) (fuel : Nat) (j : Nat)
    (pattern : Option Bytes) (plain : Bool) :
    Nat → World σ → Res (World σ × List Bytes × Ret)
  | 0, _ => .error .diverge
  | n + 1, w =>
    match finder_iterator P E fuel w j pattern plain with
    | .error e => .error e
    | .ok (w1, .values [.string name]) =>
      match finder_collect P E fuel j pattern plain n w1 with
      | .error e => .error e
      | .ok (w2, names, last) => .ok (w2, name :: names, last)
    | .ok (w1, last) => .ok (w1, [], last)

/-- Whether the filter of `casc:files` accepts a name. -/
def accepts (P : Port) (pattern : Option Bytes) (plain : Bool) (name : Bytes) : Bool :=
  match pattern with
  | none => true
  | some p => P.string_find name p plain

/-- The entries of a storage in engine order, and those the open cursor has
not served yet. -/
structure Listing where
  names : List Bytes
  cursor : List Bytes
  deriving DecidableEq, Repr

/-- An engine enumerating `names`: the first entry opens cursor `1`, each
further call serves the next entry, and at the end of the sequence the call
fails and stores `endError`.  Closing a cursor succeeds. -/
def listEngine (endError : Nat) : Engine Listing :=
  { nullEngine Listing with
    CascFindFirstFile := fun s _ =>
      match s.names with
      | [] => { val := (0, []), err := some endError, next := s }
      | n :: rest => { val := (1, n), err := none, next := { s with cursor := rest } }
    CascFindNextFile := fun s _ =>
      match s.cursor with
      | [] => { val := (false, []), err := some endError, next := s }
      | n :: rest => { val := (true, n), err := none, next := { s with cursor := rest } }
    CascFindClose := fun s _ => { val := true, err := none, next := s } }

/-- A world with one unbound finder on an open storage (handle `1`). -/
def listWorld (names : List Bytes) : World Listing :=
  { eng := { names := names, cursor := [] }, lastError := 0,
    storage := { handle := 1 }, files := [],
    finders := [{ handle := 0, storage := true }], registry := some [] }

/-- An engine that hands out the handles `s + 1` in turn, `s` being the last
one handed out; every cursor is at its end at once; every release succeeds. -/
def counterEngine : Engine Nat :=
  { nullEngine Nat with
    CascOpenStorageEx := fun s _ _ =>
      { val := (true, s + 1), err := none, next := s + 1 }
    CascOpenFile := fun s _ _ => { val := (true, s + 1), err := none, next := s + 1 }
    CascCloseFile := fun s _ => { val := true, err := none, next := s }
    CascFindFirstFile := fun s _ => { val := (s + 1, []), err := none, next := s + 1 }
    CascFindNextFile := fun s _ => { val := (false, []), err := none, next := s }
    CascFindClose := fun s _ => { val := true, err := none, next := s }
    CascCloseStorage := fun s _ => { val := true, err := none, next := s } }

/-- The world right after `casclib.open` returned a storage with handle `1`. -/
def counterWorld : World Nat :=
  { eng := 1, lastError := 0, storage := { handle := 1 }, files := [], finders := [],
    registry := some [] }

/-- The handles in use in a state of `counterEngine`. -/
def counterLive (s : Nat) (h : HANDLE) : Prop := h ≤ s

/-- An engine whose first `CascFindFirstFile` fails with error code `2` and
returns no cursor, and whose later ones return cursor `7` on `"a.txt"`. -/
def flakyEngine : Engine Nat :=
  { nullEngine Nat with
    CascFindFirstFile := fun s _ =>
      if s = 0 then { val := (0, []), err := some 2, next := 1 }
      else { val := (7, "a.txt".toList), err := none, next := s + 1 }
    CascFindClose := fun s _ => { val := true, err := none, next := s } }

/-- A world with one unbound finder on an open storage, for `flakyEngine`. -/
def flakyWorld : World Nat :=
  { eng := 0, lastError := 0, storage := { handle := 1 }, files := [],
    finders := [{ handle := 0, storage := true }], registry := some [] }

/-- A platform for concrete runs: Linux error numbers, a four-byte chunk. -/
def testPort : Port where
  ERROR_SUCCESS := 0
  ERROR_INVALID_HANDLE := 9
  LUAL_BUFFERSIZE := 4
  strerror := fun e => if e = 9 then "Bad file descriptor".toList else "error".toList
  string_find := fun name pattern _ => pattern.isSuffixOf name

/-! ## Reading a stream to its end -/

/-- The loop `repeat local s = file:read (...) until not s`: call `read` with
the formats until a call returns something else than one string; the strings
returned, in order, and the result of the last call.  At most `n` calls. -/
def read_collect {σ : Type} (P : Port) (E : Engine σ) (fuel : Nat) (i : Nat)
    (formats : List Arg) : Nat → World σ → Res (World σ × List Bytes × Ret)
  | 0, _ => .error .diverge
  | n + 1, w =>
    match file_read P E fuel w i formats with
    | .error e => .error e
    | .ok (w1, .values [.string s]) =>
      match read_collect P E fuel i formats n w1 with
      | .error e => .error e
      | .ok (w2, pieces, last) => .ok (w2, s :: pieces, last)
    | .ok (w1, last) => .ok (w1, [], last)

/-- The first line of a byte string, its terminator included. -/
def nextLine : Bytes → Bytes
  | [] => []
  | c :: rest => if c = '\n' then [c] else c :: nextLine rest

/-- A byte string cut after every line terminator. -/
def splitL : Bytes → List Bytes
  | [] => []
  | c :: rest =>
    if c = '\n' then [c] :: splitL rest
    else
      match splitL rest with
      | [] => [[c]]
      | p :: ps => (c :: p) :: ps

/-- The bytes before the first line terminator. -/
def lineBody : Bytes → Bytes
  | [] => []
  | c :: rest => if c = '\n' then [] else c :: lineBody rest

/-- The number of bytes up to and including the first line terminator. -/
def lineAdvance : Bytes → Nat
  | [] => 0
  | c :: rest => if c = '\n' then 1 else lineAdvance rest + 1

/-- The last byte read when reading up to and including the first line
terminator, `c0` when there is none to read. -/
def lineChar : Bytes → Char → Char
  | [], c0 => c0
  | c :: rest, _ => if c = '\n' then c else lineChar rest c

/-- The bytes of a stream from its position on. -/
def Stream.rest (s : Stream) : Bytes := s.content.drop s.pos

/-- Where the loops of `read_line` end on the stream engine. -/
def lineEnd (st : LineState Stream) : LineState Stream :=
  { w := { st.w with
      eng := { st.w.eng with pos := st.w.eng.pos + lineAdvance st.w.eng.rest } },
    character := lineChar st.w.eng.rest st.character,
    status := false,
    error := st.w.lastError,
    line := st.line ++ lineBody st.w.eng.rest }

/-! # Theorems -/

/-! ## Basic facts used throughout -/

theorem native_eng {σ α : Type} (w : World σ) (c : Call σ α) :
    (w.native c).1.eng = c.next := rfl

theorem native_val {σ α : Type} (w : World σ) (c : Call σ α) :
    (w.native c).2 = c.val := rfl

theorem native_lastError {σ α : Type} (w : World σ) (c : Call σ α) :
    (w.native c).1.lastError = c.err.getD w.lastError := rfl

theorem casc_result_invalid_handle (P : Port)
    (hne : P.ERROR_INVALID_HANDLE ≠ P.ERROR_SUCCESS) :
    casc_result P P.ERROR_INVALID_HANDLE 0 =
      [.nil, .string (P.strerror P.ERROR_INVALID_HANDLE),
        .integer P.ERROR_INVALID_HANDLE] := by
  simp [casc_result, hne]

/-! ## C10: the shape of `casc_result` -/

/-- C10, as stated, fails: with status `0` and a last error equal to
`ERROR_SUCCESS` the failure is reported as the single value `false`, not as
the triple. -/
theorem casc_result_failure_not_always_triple :
    ¬ (∀ (P : Port) (e : Nat),
        casc_result P e 0 = [.nil, .string (P.strerror e), .integer e]) := by
  intro h
  have h0 := h testPort 0
  simp [casc_result, testPort] at h0

/-- C10, amended: a non-zero status is the single value `true`; status `0` is
the triple `(nil, message, code)` exactly when the last error differs from
`ERROR_SUCCESS`, and the single value `false` when it is `ERROR_SUCCESS`. -/
theorem casc_result_shape (P : Port) (e : Nat) (status : Int) :
    (status ≠ 0 → casc_result P e status = [.boolean true]) ∧
    (status = 0 → e ≠ P.ERROR_SUCCESS →
      casc_result P e status = [.nil, .string (P.strerror e), .integer e]) ∧
    (status = 0 → e = P.ERROR_SUCCESS →
      casc_result P e status = [.boolean false]) := by
  refine ⟨?_, ?_, ?_⟩
  · intro hs
    simp [casc_result, hs]
  · intro hs he
    simp [casc_result, hs, he]
  · intro hs he
    simp [casc_result, hs, he]

theorem casc_result_shape_witness :
    casc_result testPort 9 0 =
        [.nil, .string (testPort.strerror 9), .integer 9] ∧
      casc_result testPort 0 0 = [.boolean false] ∧
      casc_result testPort 0 1 = [.boolean true] :=
  ⟨(casc_result_shape testPort 9 0).2.1 rfl (by decide),
   (casc_result_shape testPort 0 0).2.2 rfl rfl,
   (casc_result_shape testPort 0 1).1 (by decide)⟩

/-! ## Reads on the stream engine -/

theorem take_split {α : Type} (l : List α) (t c : Nat) (ht : t ≤ c) :
    l.take c = l.take t ++ (l.drop (l.take t).length).take (c - t) := by
  rcases Nat.le_total t l.length with hl | hl
  · have hlen : (l.take t).length = t := by simp [List.length_take, hl]
    rw [hlen]
    have hc : c = t + (c - t) := by omega
    conv_lhs => rw [hc]
    exact List.take_add l t (c - t)
  · have h1 : l.take t = l := List.take_of_length_le hl
    have h2 : l.take c = l := List.take_of_length_le (by omega)
    rw [h1, h2]
    simp

theorem peek_split (s : Stream) (t c : Nat) (ht : t ≤ c) :
    s.peek c = s.peek t ++
      ({ s with pos := s.pos + (s.peek t).length } : Stream).peek (c - t) := by
  have h := take_split (s.content.drop s.pos) t c ht
  simpa [Stream.peek, List.drop_drop, Nat.add_comm] using h

theorem peek_nil_of_le (s : Stream) (t c : Nat) (ht : 0 < t)
    (h : s.peek t = []) : s.peek c = [] := by
  unfold Stream.peek at *
  cases hd : s.content.drop s.pos with
  | nil => simp
  | cons a l =>
    rw [hd] at h
    cases t with
    | zero => omega
    | succ k => simp at h

/-- The loop of `read_characters` on the stream engine delivers the next
`min (count, remaining)` bytes. -/
theorem stream_read_characters_loop (P : Port) (hB : 0 < P.LUAL_BUFFERSIZE)
    (h : HANDLE) :
    ∀ (fuel : Nat) (w : World Stream) (count : Nat) (buf : Bytes), count ≤ fuel →
      ∃ status : Bool,
        read_characters_loop P streamEngine h fuel w count true w.lastError buf =
          .ok ({ w with eng := { w.eng with
                  pos := w.eng.pos + (w.eng.peek count).length } },
               status, w.lastError, buf ++ w.eng.peek count) ∧
        (count = 0 → status = true) ∧
        (0 < count → w.eng.peek count = [] → status = false) := by
  intro fuel
  induction fuel with
  | zero =>
    intro w count buf hc
    have h0 : count = 0 := by omega
    subst h0
    refine ⟨true, ?_, fun _ => rfl, fun hpos => absurd hpos (by decide)⟩
    unfold read_characters_loop
    simp [Stream.peek]
  | succ fuel ih =>
    intro w count buf hc
    rcases Nat.eq_zero_or_pos count with h0 | hpos
    · subst h0
      refine ⟨true, ?_, fun _ => rfl, fun hpos => absurd hpos (by decide)⟩
      unfold read_characters_loop
      simp [Stream.peek]
    · have hnat : ∀ t : Nat, (w.native (streamEngine.CascReadFile w.eng h t)) =
          ({ w with eng := { w.eng with pos := w.eng.pos + (w.eng.peek t).length } },
            (true, w.eng.peek t)) := fun t => rfl
      unfold read_characters_loop
      simp only [hpos, and_self, gt_iff_lt, if_true, hnat]
      generalize ht : (if P.LUAL_BUFFERSIZE < count then P.LUAL_BUFFERSIZE else count) = t
      have ht0 : 0 < t := by
        split_ifs at ht <;> omega
      have htc : t ≤ count := by
        split_ifs at ht <;> omega
      by_cases hd : w.eng.peek t = []
      · have hall : w.eng.peek count = [] := peek_nil_of_le w.eng t count ht0 hd
        refine ⟨false, ?_, fun h0 => absurd h0 (by omega), fun _ _ => rfl⟩
        simp [hd, hall]
      · have hlen : ¬ (w.eng.peek t).length = 0 := by
          simpa [List.length_eq_zero] using hd
        obtain ⟨st, hst, _, _⟩ := ih
          { w with eng := { w.eng with pos := w.eng.pos + (w.eng.peek t).length } }
          (count - t) (buf ++ w.eng.peek t) (by omega)
        have hsplit := peek_split w.eng t count htc
        refine ⟨st, ?_, fun h0 => absurd h0 (by omega), fun _ hnil => ?_⟩
        · simp only [hlen, or_false, if_false]
          rw [hst, hsplit]
          simp [Nat.add_assoc, List.append_assoc]
        · rw [hsplit] at hnil
          simp [hd] at hnil

/-- The function `read_characters` on the stream engine, entered with a clean last error. -/
theorem stream_read_characters (P : Port) (hB : 0 < P.LUAL_BUFFERSIZE) (h : HANDLE)
    (fuel : Nat) (w : World Stream) (count : Nat) (hc : count ≤ fuel)
    (he : w.lastError = P.ERROR_SUCCESS) :
    ∃ status : Bool,
      read_characters P streamEngine fuel w h count =
        .ok ({ w with eng := { w.eng with
                pos := w.eng.pos + (w.eng.peek count).length } },
             w.eng.peek count, status) ∧
      (count = 0 → status = true) ∧
      (0 < count → w.eng.peek count = [] → status = false) := by
  obtain ⟨st, hst, h1, h2⟩ := stream_read_characters_loop P hB h fuel w count [] hc
  refine ⟨st, ?_, h1, h2⟩
  unfold read_characters
  rw [← he, hst]
  simp [World.SetLastError]

theorem lua_Unsigned_natCast (n : Nat) (hn : n < 2 ^ 64) : lua_Unsigned (n : Int) = n := by
  unfold lua_Unsigned
  have h : ((n : Int) % 2 ^ 64) = (n : Int) := by
    apply Int.emod_eq_of_lt
    · exact Int.natCast_nonneg n
    · exact_mod_cast hn
  rw [h]
  simp

theorem peek_eq_take_min (s : Stream) (n : Nat) :
    s.peek n = (s.content.drop s.pos).take (min n (s.content.length - s.pos)) := by
  unfold Stream.peek
  rcases Nat.le_total n (s.content.length - s.pos) with hl | hl
  · rw [Nat.min_eq_left hl]
  · rw [Nat.min_eq_right hl, List.take_of_length_le (by simp; omega),
      List.take_of_length_le (by simp)]

theorem peek_length (s : Stream) (n : Nat) :
    (s.peek n).length = min n (s.content.length - s.pos) := by
  simp [Stream.peek, List.length_take]

/-- C6: on an open file whose reads succeed, `read (n)` returns the next
`min (n, r)` bytes of the `r` remaining ones and advances the position by that
many; it returns `nil` exactly when `r = 0` and `n > 0` (so the empty string
for `n = 0`), whatever the chunk size `LUAL_BUFFERSIZE > 0`. -/
theorem read_count_bytes (P : Port) (hB : 0 < P.LUAL_BUFFERSIZE) (w : World Stream)
    (i : Nat) (file : CASC_File) (hfile : w.files[i]? = some file)
    (hopen : file.handle ≠ 0) (n : Nat) (hn : n < 2 ^ 63) (fuel : Nat)
    (hfuel : n ≤ fuel) :
    file_read P streamEngine fuel w i [.number n] =
      .ok ({ w with
              eng := { w.eng with
                pos := w.eng.pos + min n (w.eng.content.length - w.eng.pos) },
              lastError := P.ERROR_SUCCESS },
           .values [if w.eng.content.length - w.eng.pos = 0 ∧ 0 < n then .nil
                    else .string ((w.eng.content.drop w.eng.pos).take
                      (min n (w.eng.content.length - w.eng.pos)))]) := by
  have hn64 : n < 2 ^ 64 := by omega
  have hsize : w.native (streamEngine.CascGetFileSize64 w.eng file.handle) =
      (w, (true, w.eng.content.length)) := rfl
  obtain ⟨st, hst, h1, h2⟩ := stream_read_characters P hB file.handle fuel
    (w.SetLastError P.ERROR_SUCCESS) n hfuel rfl
  unfold file_read
  simp only [hfile, hopen, if_false, hsize]
  simp only [file_read_loop, lua_Unsigned_natCast n hn64, hst]
  simp only [World.SetLastError] at h2 ⊢
  rw [peek_eq_take_min] at h2
  simp only [peek_length, ← peek_eq_take_min, file_read_results, ne_eq, not_true_eq_false,
    and_false, if_false, Bool.true_eq_false, List.reverse_cons, List.reverse_nil,
    List.nil_append, List.map_cons, List.map_nil, List.length_eq_zero]
  rw [peek_eq_take_min]
  by_cases hr : w.eng.content.length - w.eng.pos = 0
  · rcases Nat.eq_zero_or_pos n with h0 | hpos
    · subst h0
      simp [h1 rfl]
    · have hst0 : st = false := h2 hpos (by simp [hr])
      simp [hst0, hr, hpos]
  · have hne : List.take (min n (w.eng.content.length - w.eng.pos))
        (List.drop w.eng.pos w.eng.content) = [] → n = 0 := by
      intro hnil
      have hlen := congrArg List.length hnil
      simp [List.length_take] at hlen
      omega
    rcases Nat.eq_zero_or_pos n with h0 | hpos
    · subst h0
      simp [h1 rfl]
    · have hne2 : ¬ List.take (min n (w.eng.content.length - w.eng.pos))
          (List.drop w.eng.pos w.eng.content) = [] := fun hnil => by
        have := hne hnil
        omega
      simp [hr, hne2]
      intro _
      omega

/-- C7: on an open file of size `N` whose reads succeed, at a position
`p ≤ N`, `read ("a")` returns exactly the `N - p` bytes from `p` to the end
and leaves the position at `N`; at `p = N` this is the empty string, never
`nil` and never an error, whatever the chunk size `LUAL_BUFFERSIZE > 0`. -/
theorem read_all_bytes (P : Port) (hB : 0 < P.LUAL_BUFFERSIZE) (w : World Stream)
    (i : Nat) (file : CASC_File) (hfile : w.files[i]? = some file)
    (hopen : file.handle ≠ 0) (hp : w.eng.pos ≤ w.eng.content.length) (fuel : Nat)
    (hfuel : w.eng.content.length ≤ fuel) :
    file_read P streamEngine fuel w i [.string ['a']] =
      .ok ({ w with
              eng := { w.eng with pos := w.eng.content.length },
              lastError := P.ERROR_SUCCESS },
           .values [.string (w.eng.content.drop w.eng.pos)]) := by
  have hsize : w.native (streamEngine.CascGetFileSize64 w.eng file.handle) =
      (w, (true, w.eng.content.length)) := rfl
  obtain ⟨st, hst, _, _⟩ := stream_read_characters P hB file.handle fuel
    (w.SetLastError P.ERROR_SUCCESS) w.eng.content.length hfuel rfl
  have hpeek : w.eng.peek w.eng.content.length = w.eng.content.drop w.eng.pos := by
    unfold Stream.peek
    exact List.take_of_length_le (by simp)
  have hlen : w.eng.pos + (w.eng.content.drop w.eng.pos).length = w.eng.content.length := by
    simp
    omega
  unfold file_read
  simp only [hfile, hopen, if_false, hsize]
  simp only [file_read_loop, hst]
  simp [World.SetLastError, file_read_results, hpeek, hlen]
  omega

theorem read_count_bytes_witness :
    file_read testPort streamEngine 7 (streamWorld "abcdefghijkl".toList 2) 0
        [.number 7] =
      .ok ({ streamWorld "abcdefghijkl".toList 2 with
              eng := { content := "abcdefghijkl".toList, pos := 9 } },
           .values [.string "cdefghi".toList]) :=
  read_count_bytes testPort (by decide) (streamWorld "abcdefghijkl".toList 2) 0
    { handle := 7, storage := true } rfl (by decide) 7 (by decide) 7 (by decide)

theorem read_all_bytes_witness :
    file_read testPort streamEngine 12 (streamWorld "abcdefghijkl".toList 2) 0
        [.string ['a']] =
      .ok ({ streamWorld "abcdefghijkl".toList 2 with
              eng := { content := "abcdefghijkl".toList, pos := 12 } },
           .values [.string "cdefghijkl".toList]) :=
  read_all_bytes testPort (by decide) (streamWorld "abcdefghijkl".toList 2) 0
    { handle := 7, storage := true } rfl (by decide) (by decide) 12 (by decide)

/-! ## C2, C3: line reads -/

/-- C2 at the failing input: on content `"\ncd"` at position `0`, `read ("l")`
consumes the line terminator and returns `nil`, although an empty line, not
the end of the stream, was read. -/
theorem read_l_empty_line_returns_nil :
    file_read testPort streamEngine 8 (streamWorld "\ncd".toList 0) 0
        [.string "l".toList] =
      .ok ({ streamWorld "\ncd".toList 0 with
              eng := { content := "\ncd".toList, pos := 1 } },
           .values [.nil]) := rfl

/-- The part of C2 that holds: on `"ab\ncd"` three `read ("l")` calls return
`"ab"`, `"cd"` and `nil`. -/
theorem read_l_two_lines :
    file_read testPort streamEngine 8 (streamWorld "ab\ncd".toList 0) 0
        [.string "l".toList] =
      .ok (streamWorld "ab\ncd".toList 3, .values [.string "ab".toList]) ∧
    file_read testPort streamEngine 8 (streamWorld "ab\ncd".toList 3) 0
        [.string "l".toList] =
      .ok (streamWorld "ab\ncd".toList 5, .values [.string "cd".toList]) ∧
    file_read testPort streamEngine 8 (streamWorld "ab\ncd".toList 5) 0
        [.string "l".toList] =
      .ok (streamWorld "ab\ncd".toList 5, .values [.nil]) :=
  ⟨rfl, rfl, rfl⟩

/-- The inner loop of `read_line` keeps: a status of `1` means the last byte
read was not a line terminator. -/
theorem read_line_chunk_inv {σ : Type} (E : Engine σ) (h : HANDLE) :
    ∀ (k : Nat) (st : LineState σ), (st.status = true → st.character ≠ '\n') →
      ((read_line_chunk E h k st).status = true →
        (read_line_chunk E h k st).character ≠ '\n') := by
  intro k
  induction k with
  | zero =>
    intro st hinv
    simpa [read_line_chunk] using hinv
  | succ k ih =>
    intro st _
    unfold read_line_chunk
    simp only
    split
    · intro hs
      simp at hs
    · rename_i hc
      apply ih
      intro _
      simp only [not_or] at hc
      exact hc.2.2

theorem read_line_loop_status {σ : Type} (P : Port) (E : Engine σ) (h : HANDLE) :
    ∀ (fuel : Nat) (st st1 : LineState σ), (st.status = true → st.character ≠ '\n') →
      read_line_loop P E h fuel st = .ok st1 → st1.status = false := by
  intro fuel
  induction fuel with
  | zero =>
    intro st st1 hinv hst
    unfold read_line_loop at hst
    by_cases hc : st.status = true ∧ st.character ≠ '\n'
    · rw [if_pos hc] at hst
      cases hst
    · rw [if_neg hc] at hst
      cases hst
      by_contra hs
      have hs1 : st.status = true := by simpa using hs
      exact hc ⟨hs1, hinv hs1⟩
  | succ fuel ih =>
    intro st st1 hinv hst
    unfold read_line_loop at hst
    by_cases hc : st.status = true ∧ st.character ≠ '\n'
    · rw [if_pos hc] at hst
      exact ih _ _ (read_line_chunk_inv E h _ st hinv) hst
    · rw [if_neg hc] at hst
      cases hst
      by_contra hs
      have hs1 : st.status = true := by simpa using hs
      exact hc ⟨hs1, hinv hs1⟩

/-- The function `read_line` never reports success: whenever it returns, its
status is `0`, also after a complete line.  This is why a line format ends the
format loop of `file_read` and why an empty line becomes `nil`. -/
theorem read_line_status_false {σ : Type} (P : Port) (E : Engine σ) (fuel : Nat)
    (w w1 : World σ) (h : HANDLE) (chop : Bool) (s : Bytes) (status : Bool)
    (hret : read_line P E fuel w h chop = .ok (w1, s, status)) : status = false := by
  unfold read_line at hret
  split at hret
  · cases hret
  · rename_i st hst
    have h0 : Char.ofNat 0 ≠ '\n' := by decide
    have hs := read_line_loop_status P E h fuel _ st (fun _ => h0) hst
    simp only [Except.ok.injEq, Prod.mk.injEq] at hret
    rw [← hret.2.2]
    exact hs

/-- C3 at the failing input: on content `"ab\ncd\nef"`, `read ("l", "l")`
returns the single result `"ab"` and `read ("L", 1)` the single result
`"ab\n"`; the second format is not attempted although it is readable. -/
theorem read_two_formats_returns_one :
    file_read testPort streamEngine 8 (streamWorld "ab\ncd\nef".toList 0) 0
        [.string "l".toList, .string "l".toList] =
      .ok (streamWorld "ab\ncd\nef".toList 3, .values [.string "ab".toList]) ∧
    file_read testPort streamEngine 8 (streamWorld "ab\ncd\nef".toList 0) 0
        [.string "L".toList, .number 1] =
      .ok (streamWorld "ab\ncd\nef".toList 3, .values [.string "ab\n".toList]) :=
  ⟨rfl, rfl⟩

/-! ## C4: engine errors during a read -/

/-- C4 at the failing input: when the native read fails with error code `5`,
`read ("a")` returns the empty string as a success instead of the error
triple, while `read (3)` and `read ("l")` return the triple. -/
theorem read_a_swallows_engine_error :
    file_read testPort (failingEngine 5) 8 (streamWorld "abcdef".toList 0) 0
        [.string "a".toList] =
      .ok ({ streamWorld "abcdef".toList 0 with lastError := 5 },
           .values [.string []]) ∧
    file_read testPort (failingEngine 5) 8 (streamWorld "abcdef".toList 0) 0
        [.number 3] =
      .ok ({ streamWorld "abcdef".toList 0 with lastError := 5 },
           .values [.nil, .string "error".toList, .integer 5]) ∧
    file_read testPort (failingEngine 5) 8 (streamWorld "abcdef".toList 0) 0
        [.string "l".toList] =
      .ok ({ streamWorld "abcdef".toList 0 with lastError := 5 },
           .values [.nil, .string "error".toList, .integer 5]) :=
  ⟨rfl, rfl, rfl⟩

/-! ## The read defects in general -/

/-- A format that follows a line format is never attempted: the status that
`read_line` returns ends the format loop of `file_read`. -/
theorem line_format_ends_loop {σ : Type} (P : Port) (E : Engine σ) (fuel : Nat)
    (h : HANDLE) (size : Nat) (rest : List Arg) (st : ReadState σ) :
    file_read_loop P E fuel h size (.string ['l'] :: rest) st =
        file_read_loop P E fuel h size [.string ['l']] st ∧
    file_read_loop P E fuel h size (.string ['L'] :: rest) st =
        file_read_loop P E fuel h size [.string ['L']] st := by
  have hstop : ∀ (st' : ReadState σ), st'.status = false →
      file_read_loop P E fuel h size rest st' = .ok (st'.w, .ok st') := by
    intro st' hs
    cases rest with
    | nil => rfl
    | cons a rest' => simp [file_read_loop, hs]
  constructor
  · by_cases hs : st.status = false
    · simp [file_read_loop, hs]
    · have h1 : (['l'] : Bytes).head? = some 'l' := rfl
      simp only [file_read_loop, hs, if_false]
      cases hr : read_line P E fuel st.w h true with
      | error e => simp [hr]
      | ok res =>
        obtain ⟨w1, s, status⟩ := res
        have hst := read_line_status_false P E fuel st.w w1 h true s status hr
        subst hst
        simp [hr, hstop]
  · by_cases hs : st.status = false
    · simp [file_read_loop, hs]
    · simp only [file_read_loop, hs, if_false]
      cases hr : read_line P E fuel st.w h false with
      | error e => simp [hr]
      | ok res =>
        obtain ⟨w1, s, status⟩ := res
        have hst := read_line_status_false P E fuel st.w w1 h false s status hr
        subst hst
        simp [hr, hstop]

/-- On the stream engine, `read ("l")` at an empty line returns `nil` for
every content: the terminator is consumed and the empty result is taken for
the end of the stream. -/
theorem read_l_empty_line (P : Port) (hB : 0 < P.LUAL_BUFFERSIZE) (w : World Stream)
    (i : Nat) (file : CASC_File) (hfile : w.files[i]? = some file)
    (hopen : file.handle ≠ 0) (rest : Bytes)
    (hnl : w.eng.content.drop w.eng.pos = '\n' :: rest) (fuel : Nat)
    (hfuel : 0 < fuel) :
    file_read P streamEngine fuel w i [.string ['l']] =
      .ok ({ w with eng := { w.eng with pos := w.eng.pos + 1 },
                    lastError := P.ERROR_SUCCESS },
           .values [.nil]) := by
  obtain ⟨f, rfl⟩ : ∃ f, fuel = f + 1 := ⟨fuel - 1, by omega⟩
  obtain ⟨b, hb⟩ : ∃ b, P.LUAL_BUFFERSIZE = b + 1 := ⟨P.LUAL_BUFFERSIZE - 1, by omega⟩
  have hsize : w.native (streamEngine.CascGetFileSize64 w.eng file.handle) =
      (w, (true, w.eng.content.length)) := rfl
  have hpeek : w.eng.peek 1 = ['\n'] := by
    simp [Stream.peek, hnl]
  have hread : ∀ (w' : World Stream), w'.eng = w.eng →
      (w'.native (streamEngine.CascReadFile w'.eng file.handle 1)) =
        ({ w' with eng := { w.eng with pos := w.eng.pos + 1 } }, (true, ['\n'])) := by
    intro w' he
    have : (w'.native (streamEngine.CascReadFile w'.eng file.handle 1)) =
        ({ w' with eng := { w'.eng with pos := w'.eng.pos + (w'.eng.peek 1).length } },
          (true, w'.eng.peek 1)) := rfl
    rw [this, he, hpeek]
    rfl
  unfold file_read
  simp only [hfile, hopen, if_false, hsize]
  simp only [file_read_loop, read_line]
  have hloop : read_line_loop P streamEngine file.handle (f + 1)
      { w := w.SetLastError P.ERROR_SUCCESS, character := Char.ofNat 0, status := true,
        error := 0, line := [] } =
      .ok { w := { w with eng := { w.eng with pos := w.eng.pos + 1 },
                          lastError := P.ERROR_SUCCESS },
            character := '\n', status := false, error := P.ERROR_SUCCESS, line := [] } := by
    have h0 : Char.ofNat 0 ≠ '\n' := by decide
    unfold read_line_loop
    simp only [h0, ne_eq, not_false_eq_true, and_self, if_true, hb]
    unfold read_line_chunk
    simp only [hread (w.SetLastError P.ERROR_SUCCESS) rfl]
    unfold read_line_loop
    simp [World.SetLastError]
  simp only [hloop]
  simp [World.SetLastError, file_read_results]

/-- For every engine: if the size query succeeds with a positive size and the
first native read fails, `read ("a")` still returns the empty string as a
success, whatever error code the failed read stored. -/
theorem read_a_ignores_failure {σ : Type} (P : Port) (E : Engine σ) (w : World σ) (i : Nat) (file : CASC_File)
    (hfile : w.files[i]? = some file) (hopen : file.handle ≠ 0)
    (hsize : (E.CascGetFileSize64 w.eng file.handle).val.1 = true)
    (hpos : 0 < (E.CascGetFileSize64 w.eng file.handle).val.2)
    (hfail : ∀ n, (E.CascReadFile (E.CascGetFileSize64 w.eng file.handle).next
      file.handle n).val.1 = false)
    (fuel : Nat) (hfuel : 0 < fuel) :
    ∃ w', file_read P E fuel w i [.string ['a']] = .ok (w', .values [.string []]) := by
  obtain ⟨f, rfl⟩ : ∃ f, fuel = f + 1 := ⟨fuel - 1, by omega⟩
  unfold file_read
  simp only [hfile, hopen, if_false, native_val, hsize]
  simp only [file_read_loop, read_characters]
  unfold read_characters_loop
  simp [hpos, World.native, World.SetLastError, hfail, file_read_results]

/-! ## C9: the iterator of `file:lines` -/

/-- C9 at the failing input: when the size query fails and leaves the last
error at `ERROR_SUCCESS`, the read returns the single value `false`, which is
not `nil`; the iterator step tests it with `lua_toboolean` and returns no
result, so the failed read passes for the end of the stream, where the comment
in `lines_iterator` says that a first result that is not `nil` is returned. -/
theorem lines_iterator_drops_false :
    file_read testPort (nullEngine Stream) 8 (streamWorld "ab".toList 0) 0 [] =
      .ok (streamWorld "ab".toList 0, .values [.boolean false]) ∧
    LuaValue.boolean false ≠ LuaValue.nil ∧
    lines_iterator testPort (nullEngine Stream) 8 (streamWorld "ab".toList 0) 0 [] =
      .ok (streamWorld "ab".toList 0, .values []) :=
  ⟨rfl, by decide, rfl⟩

/-- What a step of the iterator does in the other cases: a step of the
iterator made by `lines (f1..fk)` performs one
`read` with the captured formats (`"l"` when there is none) and ends in the
world that read leaves.  If the first result of the read is neither `nil` nor
`false`, the step returns all results of the read; if the read returns a
single `nil`, the step returns no result and does not raise; if the read
returns an error triple, or the file is closed, the step raises an error
carrying the message. -/
theorem lines_iterator_protocol {σ : Type} (P : Port) (E : Engine σ) (fuel : Nat)
    (w : World σ) (i : Nat) (formats : List Arg) (file : CASC_File)
    (hfile : w.files[i]? = some file)
    (hne : P.ERROR_INVALID_HANDLE ≠ P.ERROR_SUCCESS) :
    (file.handle = 0 →
      lines_iterator P E fuel w i formats =
        .ok (w.SetLastError P.ERROR_INVALID_HANDLE,
             .raise (P.strerror P.ERROR_INVALID_HANDLE))) ∧
    (file.handle ≠ 0 → ∀ (w1 : World σ) (vs : List LuaValue),
      file_read P E fuel w i formats = .ok (w1, .values vs) →
        (∀ v rest, vs = v :: rest → v ≠ .nil → v ≠ .boolean false →
          lines_iterator P E fuel w i formats = .ok (w1, .values vs)) ∧
        (vs = [.nil] →
          lines_iterator P E fuel w i formats = .ok (w1, .values [])) ∧
        (∀ msg code, vs = [.nil, .string msg, code] →
          lines_iterator P E fuel w i formats = .ok (w1, .raise msg))) ∧
    (file.handle ≠ 0 → formats.length ≤ LINES_MAXIMUM_ARGUMENTS →
      file_lines P w i formats = (w, .values [.lines_iterator i formats])) ∧
    file_read P E fuel w i [] = file_read P E fuel w i [.string ['l']] := by
  refine ⟨?_, ?_, ?_, ?_⟩
  · intro h0
    unfold lines_iterator
    simp [hfile, h0, World.SetLastError, casc_result, hne, lua_tostring]
  · intro hopen w1 vs hread
    refine ⟨?_, ?_, ?_⟩
    · intro v rest hvs hnil hfalse
      have htrue : lua_toboolean v = true := by
        cases v with
        | nil => exact absurd rfl hnil
        | boolean b =>
          cases b with
          | false => exact absurd rfl hfalse
          | true => rfl
        | _ => rfl
      unfold lines_iterator
      simp [hfile, hopen, hread, hvs, htrue]
    · intro hvs
      unfold lines_iterator
      simp [hfile, hopen, hread, hvs, lua_toboolean]
    · intro msg code hvs
      unfold lines_iterator
      simp [hfile, hopen, hread, hvs, lua_toboolean, lua_tostring]
  · intro hopen hlen
    unfold file_lines
    simp [hfile, hopen, hlen]
  · unfold file_read
    rfl

theorem lines_iterator_protocol_witness :
    lines_iterator testPort streamEngine 8 (streamWorld "ab\ncd".toList 0) 0 [] =
      .ok (streamWorld "ab\ncd".toList 3, .values [.string "ab".toList]) :=
  ((lines_iterator_protocol testPort streamEngine 8 (streamWorld "ab\ncd".toList 0) 0 []
      { handle := 7, storage := true } rfl (by decide)).2.1 (by decide)
      (streamWorld "ab\ncd".toList 3) [.string "ab".toList] rfl).1
    (.string "ab".toList) [] rfl (by decide) (by decide)

/-! ## C5: enumeration with a filter -/

theorem filter_of_dropWhile_nil {α : Type} (p : α → Bool) :
    ∀ (c : List α), c.dropWhile (fun a => !p a) = [] → c.filter p = [] := by
  intro c
  induction c with
  | nil => intro _; rfl
  | cons x rest ih =>
    intro h
    by_cases hx : p x = true
    · simp [List.dropWhile_cons, hx] at h
    · simp only [Bool.not_eq_true] at hx
      simp only [List.dropWhile_cons, hx, Bool.not_false, if_true] at h
      simp [List.filter_cons, hx, ih h]

theorem filter_of_dropWhile_cons {α : Type} (p : α → Bool) :
    ∀ (c : List α) (m : α) (post : List α), c.dropWhile (fun a => !p a) = m :: post →
      c.filter p = m :: post.filter p ∧ post.length < c.length := by
  intro c
  induction c with
  | nil => intro m post h; simp at h
  | cons x rest ih =>
    intro m post h
    by_cases hx : p x = true
    · simp only [List.dropWhile_cons, hx, Bool.not_true, Bool.false_eq_true, if_false,
        List.cons.injEq] at h
      obtain ⟨h1, h2⟩ := h
      subst h1 h2
      simp [List.filter_cons, hx]
    · simp only [Bool.not_eq_true] at hx
      simp only [List.dropWhile_cons, hx, Bool.not_false, if_true] at h
      obtain ⟨h1, h2⟩ := ih m post h
      refine ⟨by simp [List.filter_cons, hx, h1], ?_⟩
      simp only [List.length_cons]
      omega

theorem list_next_nil (e : Nat) (s : Listing) (h : HANDLE) (hc : s.cursor = []) :
    (listEngine e).CascFindNextFile s h =
      { val := (false, []), err := some e, next := { s with cursor := [] } } := by
  cases s with
  | mk names cursor =>
    simp only at hc
    subst hc
    rfl

theorem list_next_cons (e : Nat) (s : Listing) (h : HANDLE) (x : Bytes)
    (rest : List Bytes) (hc : s.cursor = x :: rest) :
    (listEngine e).CascFindNextFile s h =
      { val := (true, x), err := none, next := { s with cursor := rest } } := by
  cases s with
  | mk names cursor =>
    simp only at hc
    subst hc
    rfl

theorem list_first_cons (e : Nat) (s : Listing) (h : HANDLE) (x : Bytes)
    (rest : List Bytes) (hc : s.names = x :: rest) :
    (listEngine e).CascFindFirstFile s h =
      { val := (1, x), err := none, next := { s with cursor := rest } } := by
  cases s with
  | mk names cursor =>
    simp only at hc
    subst hc
    rfl

theorem list_close (e : Nat) (s : Listing) (h : HANDLE) :
    (listEngine e).CascFindClose s h = { val := true, err := none, next := s } := rfl

/-- The loop of `finder_iterator` on a bound finder of the list engine skips
the rejected names and stops at the first accepted one, or at the end. -/
theorem list_loop_bound (P : Port) (endError : Nat) (j : Nat) (pattern : Option Bytes)
    (plain : Bool) :
    ∀ (c : List Bytes) (fuel : Nat) (w : World Listing) (finder : CASC_Finder),
      w.finders[j]? = some finder → finder.handle ≠ 0 → w.eng.cursor = c →
      c.length < fuel →
      finder_iterator_loop P (listEngine endError) j pattern plain fuel w =
        (match c.dropWhile (fun n => !accepts P pattern plain n) with
         | [] => .ok ({ w with eng := { w.eng with cursor := [] },
                               lastError := endError }, false, none)
         | m :: post => .ok ({ w with eng := { w.eng with cursor := post } },
                              true, some m)) := by
  intro c
  induction c with
  | nil =>
    intro fuel w finder hj hh hc hfuel
    obtain ⟨f, rfl⟩ : ∃ f, fuel = f + 1 := ⟨fuel - 1, by simp at hfuel; omega⟩
    unfold finder_iterator_loop
    simp only [hj, hh, if_false, list_next_nil endError w.eng finder.handle hc]
    simp [World.native]
  | cons x rest ih =>
    intro fuel w finder hj hh hc hfuel
    obtain ⟨f, rfl⟩ : ∃ f, fuel = f + 1 := ⟨fuel - 1, by simp at hfuel; omega⟩
    have hrec := ih f
      { w with eng := { w.eng with cursor := rest } } finder hj hh rfl
      (by simp at hfuel; omega)
    unfold finder_iterator_loop
    simp only [hj, hh, if_false, list_next_cons endError w.eng finder.handle x rest hc]
    by_cases hx : accepts P pattern plain x = true
    · cases pattern with
      | none => simp [World.native, List.dropWhile_cons, hx]
      | some p =>
        have hx1 : P.string_find x p plain = true := hx
        simp [World.native, List.dropWhile_cons, hx, hx1]
    · cases pattern with
      | none => exact absurd rfl hx
      | some p =>
        have hx1 : P.string_find x p plain = false := by
          simpa [accepts] using hx
        have hx2 : accepts P (some p) plain x = false := by simpa using hx
        simp only [World.native, hx1, List.dropWhile_cons, hx2]
        simpa using hrec

/-- The first pass of the loop on an unbound finder: the cursor is opened,
the finder is registered under it, and the loop goes on as on a bound one. -/
theorem list_loop_unbound (P : Port) (endError : Nat) (j : Nat) (pattern : Option Bytes)
    (plain : Bool) (x : Bytes) (rest : List Bytes) (fuel : Nat) (w : World Listing)
    (finder : CASC_Finder) (t : Table) (hj : w.finders[j]? = some finder)
    (hh : finder.handle = 0) (hs : finder.storage = true) (hreg : w.registry = some t)
    (hn : w.eng.names = x :: rest) (hfuel : (x :: rest).length < fuel) :
    finder_iterator_loop P (listEngine endError) j pattern plain fuel w =
      (match (x :: rest).dropWhile (fun n => !accepts P pattern plain n) with
       | [] => .ok ({ w with
                      eng := { w.eng with cursor := [] }, lastError := endError,
                      finders := w.finders.set j { finder with handle := 1 },
                      registry := some (t.rawset 1 (some (.finder j))) }, false, none)
       | m :: post => .ok ({ w with
                      eng := { w.eng with cursor := post },
                      finders := w.finders.set j { finder with handle := 1 },
                      registry := some (t.rawset 1 (some (.finder j))) },
                    true, some m)) := by
  obtain ⟨f, rfl⟩ : ∃ f, fuel = f + 1 := ⟨fuel - 1, by simp at hfuel; omega⟩
  have hlt : j < w.finders.length := by
    rcases List.getElem?_eq_some.mp hj with ⟨h, _⟩
    exact h
  obtain ⟨fh, fs⟩ := finder
  simp only at hh hs
  subst hh hs
  have hset : (w.finders.set j { handle := 1, storage := true })[j]? =
      some { handle := 1, storage := true } := List.getElem?_set_self hlt
  have hrec := list_loop_bound P endError j pattern plain rest f
    { w with
      eng := { w.eng with cursor := rest },
      finders := w.finders.set j { handle := 1, storage := true },
      registry := some (t.rawset 1 (some (.finder j))) }
    { handle := 1, storage := true } hset Nat.one_ne_zero rfl (by simp at hfuel; omega)
  unfold finder_iterator_loop
  simp only [hj, if_true, list_first_cons endError w.eng w.storage.handle x rest hn]
  simp only [World.native, casc_registry_insert_finder, hset, registry_insert, hreg,
    if_true, Option.getD_none]
  by_cases hx : accepts P pattern plain x = true
  · cases pattern with
    | none =>
      clear hrec
      simp [List.dropWhile_cons, hx]
    | some p =>
      clear hrec
      have hx1 : P.string_find x p plain = true := hx
      simp [List.dropWhile_cons, hx, hx1]
  · cases pattern with
    | none => exact absurd rfl hx
    | some p =>
      have hx1 : P.string_find x p plain = false := by
        simpa [accepts] using hx
      have hx2 : accepts P (some p) plain x = false := by simpa using hx
      simp only [hx1, List.dropWhile_cons, hx2]
      simpa using hrec

/-- Closing a bound, registered finder of the list engine. -/
theorem list_finder_close (P : Port) (e : Nat) (j : Nat) (w : World Listing)
    (finder : CASC_Finder) (t : Table) (hj : w.finders[j]? = some finder)
    (hh : finder.handle ≠ 0) (hs : finder.storage = true) (hreg : w.registry = some t) :
    finder_close P (listEngine e) w j =
      .ok ({ w with
              registry := some (t.rawset finder.handle none),
              finders := w.finders.set j { finder with handle := 0 } },
           .values (casc_result P w.lastError 1)) := by
  unfold finder_close
  simp only [hj, hh, if_false, casc_registry_remove_finder, registry_remove, hs, hreg,
    if_true, list_close]
  rfl

/-- One step of the iterator, given how its loop ends on a bound base world. -/
theorem list_iterator_of_loop (P : Port) (j : Nat) (pattern : Option Bytes) (plain : Bool)
    (fuel : Nat) (w wb : World Listing) (finder fb : CASC_Finder) (t : Table)
    (d : List Bytes) (hj : w.finders[j]? = some finder)
    (hjb : wb.finders[j]? = some fb) (hhb : fb.handle ≠ 0) (hsb : fb.storage = true)
    (hregb : wb.registry = some t)
    (hloop : finder_iterator_loop P (listEngine P.ERROR_SUCCESS) j pattern plain fuel w =
      (match d with
       | [] => .ok ({ wb with eng := { wb.eng with cursor := [] },
                              lastError := P.ERROR_SUCCESS }, false, none)
       | m :: post => .ok ({ wb with eng := { wb.eng with cursor := post } },
                            true, some m))) :
    finder_iterator P (listEngine P.ERROR_SUCCESS) fuel w j pattern plain =
      (match d with
       | [] => .ok ({ wb with
                      eng := { wb.eng with cursor := [] }, lastError := P.ERROR_SUCCESS,
                      registry := some (t.rawset fb.handle none),
                      finders := wb.finders.set j { fb with handle := 0 } }, .values [])
       | m :: post => .ok ({ wb with eng := { wb.eng with cursor := post } },
                            .values [.string m])) := by
  unfold finder_iterator
  simp only [hj, hloop]
  cases d with
  | nil =>
    have hclose := list_finder_close P P.ERROR_SUCCESS j
      { wb with eng := { wb.eng with cursor := [] }, lastError := P.ERROR_SUCCESS }
      fb t hjb hhb hsb hregb
    simp only [hclose]
    simp
  | cons m post => simp

/-- Draining a bound finder of the list engine yields the accepted names that
the cursor has not served yet, in order, and closes the finder. -/
theorem list_collect_bound (P : Port) (j : Nat) (pattern : Option Bytes) (plain : Bool)
    (fuel : Nat) :
    ∀ (n : Nat) (c : List Bytes) (w : World Listing) (finder : CASC_Finder) (t : Table),
      w.finders[j]? = some finder → finder.handle ≠ 0 → finder.storage = true →
      w.registry = some t → w.eng.cursor = c → c.length < fuel → c.length < n →
      ∃ w', finder_collect P (listEngine P.ERROR_SUCCESS) fuel j pattern plain n w =
          .ok (w', c.filter (accepts P pattern plain), .values []) ∧
        w'.finders[j]? = some { finder with handle := 0 } := by
  intro n
  induction n with
  | zero => intro c w finder t _ _ _ _ _ _ hn; omega
  | succ n ih =>
    intro c w finder t hj hh hs hreg hc hfuel hn
    have hlt : j < w.finders.length := by
      rcases List.getElem?_eq_some.mp hj with ⟨h, _⟩
      exact h
    have hloop := list_loop_bound P P.ERROR_SUCCESS j pattern plain c fuel w finder
      hj hh hc hfuel
    unfold finder_collect
    rcases hd : c.dropWhile (fun n => !accepts P pattern plain n) with _ | ⟨m, post⟩
    · rw [hd] at hloop
      have hstep := list_iterator_of_loop P j pattern plain fuel w w finder finder t
        [] hj hj hh hs hreg hloop
      refine ⟨{ w with
                eng := { w.eng with cursor := [] }, lastError := P.ERROR_SUCCESS,
                registry := some (t.rawset finder.handle none),
                finders := w.finders.set j { finder with handle := 0 } }, ?_, ?_⟩
      · rw [hstep, filter_of_dropWhile_nil _ c hd]
      · simp [hlt]
    · rw [hd] at hloop
      have hstep := list_iterator_of_loop P j pattern plain fuel w w finder finder t
        (m :: post) hj hj hh hs hreg hloop
      obtain ⟨hfilter, hlen⟩ := filter_of_dropWhile_cons _ c m post hd
      obtain ⟨w', hw', hfin⟩ := ih post
        { w with eng := { w.eng with cursor := post } } finder t hj hh hs hreg rfl
        (by omega) (by omega)
      refine ⟨w', ?_, hfin⟩
      rw [hstep]
      simp only [hw', hfilter]

/-- C5: for a non-empty list of entries served in order and any filter,
calling the iterator of `casc:files` until it yields no result yields exactly
the entries the filter accepts, each once and in engine order (all entries
without a pattern); the last call returns no result, does not raise, and
leaves the finder closed, when the engine ends the sequence with
`ERROR_SUCCESS`. -/
theorem finder_enumerates_accepted (P : Port) (names : List Bytes) (hne : names ≠ [])
    (pattern : Option Bytes) (plain : Bool) (w : World Listing) (j : Nat)
    (finder : CASC_Finder) (t : Table) (hj : w.finders[j]? = some finder)
    (hh : finder.handle = 0) (hs : finder.storage = true) (hreg : w.registry = some t)
    (hn : w.eng.names = names) (fuel : Nat) (hfuel : names.length < fuel) (n : Nat)
    (hcalls : names.length < n) :
    (∃ w', finder_collect P (listEngine P.ERROR_SUCCESS) fuel j pattern plain n w =
        .ok (w', names.filter (accepts P pattern plain), .values []) ∧
      w'.finders[j]? = some { finder with handle := 0 }) ∧
    (pattern = none → names.filter (accepts P pattern plain) = names) := by
  refine ⟨?_, ?_⟩
  · obtain ⟨x, rest, rfl⟩ : ∃ x rest, names = x :: rest := by
      cases names with
      | nil => exact absurd rfl hne
      | cons x rest => exact ⟨x, rest, rfl⟩
    obtain ⟨k, rfl⟩ : ∃ k, n = k + 1 := ⟨n - 1, by simp at hcalls; omega⟩
    have hlt : j < w.finders.length := by
      rcases List.getElem?_eq_some.mp hj with ⟨h, _⟩
      exact h
    have hloop := list_loop_unbound P P.ERROR_SUCCESS j pattern plain x rest fuel w
      finder t hj hh hs hreg hn hfuel
    have hsetb : (w.finders.set j { finder with handle := 1 })[j]? =
        some { finder with handle := 1 } := List.getElem?_set_self hlt
    unfold finder_collect
    rcases hd : (x :: rest).dropWhile (fun n => !accepts P pattern plain n) with
      _ | ⟨m, post⟩
    · rw [hd] at hloop
      have hstep := list_iterator_of_loop P j pattern plain fuel w
        { w with
          finders := w.finders.set j { finder with handle := 1 },
          registry := some (t.rawset 1 (some (.finder j))) }
        finder { finder with handle := 1 } (t.rawset 1 (some (.finder j)))
        [] hj hsetb Nat.one_ne_zero hs rfl hloop
      refine ⟨{ w with
                eng := { w.eng with cursor := [] }, lastError := P.ERROR_SUCCESS,
                registry := some ((t.rawset 1 (some (.finder j))).rawset 1 none),
                finders := (w.finders.set j { finder with handle := 1 }).set j
                  { finder with handle := 0 } }, ?_, ?_⟩
      · rw [hstep, filter_of_dropWhile_nil _ (x :: rest) hd]
      · simp [hlt]
    · rw [hd] at hloop
      have hstep := list_iterator_of_loop P j pattern plain fuel w
        { w with
          finders := w.finders.set j { finder with handle := 1 },
          registry := some (t.rawset 1 (some (.finder j))) }
        finder { finder with handle := 1 } (t.rawset 1 (some (.finder j)))
        (m :: post) hj hsetb Nat.one_ne_zero hs rfl hloop
      obtain ⟨hfilter, hlen⟩ := filter_of_dropWhile_cons _ (x :: rest) m post hd
      obtain ⟨w', hw', hfin⟩ := list_collect_bound P j pattern plain fuel k post
        { w with
          eng := { w.eng with cursor := post },
          finders := w.finders.set j { finder with handle := 1 },
          registry := some (t.rawset 1 (some (.finder j))) }
        { finder with handle := 1 } (t.rawset 1 (some (.finder j))) hsetb
        Nat.one_ne_zero hs rfl rfl (by omega) (by simp at hlen hcalls; omega)
      refine ⟨w', ?_, hfin⟩
      rw [hstep]
      simp only [hw', hfilter]
  · intro hp
    subst hp
    simp [accepts]

theorem finder_enumerates_accepted_witness :
    ∃ w', finder_collect testPort (listEngine testPort.ERROR_SUCCESS) 4 0
        (some ".txt".toList) false 4
        (listWorld ["a.txt".toList, "b.dat".toList, "ab.txt".toList]) =
      .ok (w', ["a.txt".toList, "ab.txt".toList], .values []) ∧
      w'.finders[0]? = some { handle := 0, storage := true } :=
  (finder_enumerates_accepted testPort
    ["a.txt".toList, "b.dat".toList, "ab.txt".toList] (by decide)
    (some ".txt".toList) false
    (listWorld ["a.txt".toList, "b.dat".toList, "ab.txt".toList]) 0
    { handle := 0, storage := true } [] rfl rfl rfl rfl rfl 4 (by decide) 4
    (by decide)).1

/-! ## The registry table -/

theorem rawget_filter (t : Table) (k k' : HANDLE) :
    Table.rawget (t.filter (fun e => decide (e.1 ≠ k))) k' =
      if k' = k then none else Table.rawget t k' := by
  induction t with
  | nil => simp [Table.rawget]
  | cons e t ih =>
    obtain ⟨a, v⟩ := e
    by_cases ha : a = k
    · subst ha
      simp only [List.filter_cons, ne_eq, not_true_eq_false, decide_False,
        Bool.false_eq_true, if_false, ih, Table.rawget]
      by_cases hk : k' = a
      · simp [hk]
      · have hk' : ¬ a = k' := fun h => hk h.symm
        simp [hk, hk']
    · simp only [List.filter_cons, ne_eq, ha, not_false_eq_true, decide_True, if_true,
        Table.rawget, ih]
      by_cases hk : k' = k
      · subst hk
        simp [ha]
      · simp [hk]

theorem rawget_rawset_none (t : Table) (k k' : HANDLE) :
    (t.rawset k none).rawget k' = if k' = k then none else t.rawget k' := by
  simp only [Table.rawset]
  exact rawget_filter t k k'

theorem rawget_rawset_some (t : Table) (k k' : HANDLE) (o : Obj) :
    (t.rawset k (some o)).rawget k' = if k' = k then some o else t.rawget k' := by
  simp only [Table.rawset, Table.rawget, rawget_filter]
  by_cases hk : k' = k
  · subst hk
    simp
  · have hk' : ¬ k = k' := fun h => hk h.symm
    simp [hk, hk']

theorem rawget_some_mem (t : Table) (k : HANDLE) (o : Obj)
    (h : t.rawget k = some o) : k ∈ t.map Prod.fst := by
  induction t with
  | nil => simp [Table.rawget] at h
  | cons e t ih =>
    obtain ⟨a, v⟩ := e
    simp only [Table.rawget] at h
    by_cases ha : a = k
    · simp [ha]
    · simp only [ha, if_false] at h
      simp [ih h]

theorem getElem?_lt {α : Type} {l : List α} {i : Nat} {a : α} (h : l[i]? = some a) :
    i < l.length := by
  rcases List.getElem?_eq_some.mp h with ⟨hlt, _⟩
  exact hlt

theorem set_same {α : Type} (l : List α) (i : Nat) (a : α) (h : l[i]? = some a) :
    l.set i a = l := by
  apply List.ext_getElem?
  intro n
  by_cases hn : i = n
  · subst hn
    rw [List.getElem?_set_self (getElem?_lt h), h]
  · rw [List.getElem?_set_ne hn]

/-! ## Closing one object -/

/-- Closing a closed file: the Invalid-Handle triple, no engine call, no
change but the last error. -/
theorem file_close_closed {σ : Type} (P : Port) (E : Engine σ)
    (hne : P.ERROR_INVALID_HANDLE ≠ P.ERROR_SUCCESS) (w : World σ) (i : Nat)
    (file : CASC_File) (hfile : w.files[i]? = some file) (h0 : file.handle = 0) :
    file_close P E w i =
      .ok (w.SetLastError P.ERROR_INVALID_HANDLE, invalid_handle P) := by
  obtain ⟨fh, fs⟩ := file
  simp only at h0
  subst h0
  unfold file_close
  simp only [hfile, if_true, World.SetLastError, set_same w.files i _ hfile,
    casc_result_invalid_handle P hne, invalid_handle]

/-- Closing an open, registered file, whatever `CascCloseFile` returns. -/
theorem file_close_open {σ : Type} (P : Port) (E : Engine σ) (w : World σ) (i : Nat)
    (file : CASC_File) (t : Table) (hfile : w.files[i]? = some file)
    (hopen : file.handle ≠ 0) (hs : file.storage = true) (hreg : w.registry = some t) :
    ∃ (w' : World σ) (status : Bool),
      file_close P E w i = .ok (w', .values (casc_result P w'.lastError (cint status))) ∧
      w'.files = w.files.set i { handle := 0, storage := false } ∧
      w'.finders = w.finders ∧ w'.storage = w.storage ∧
      w'.registry = some (t.rawset file.handle none) ∧
      w'.eng = (E.CascCloseFile w.eng file.handle).next := by
  refine ⟨{ eng := (E.CascCloseFile w.eng file.handle).next,
            lastError := (E.CascCloseFile w.eng file.handle).err.getD w.lastError,
            storage := w.storage,
            files := w.files.set i { handle := 0, storage := false },
            finders := w.finders,
            registry := some (t.rawset file.handle none) },
    (E.CascCloseFile w.eng file.handle).val, ?_, ?_, ?_, ?_, ?_, ?_⟩
  · unfold file_close
    simp only [hfile, hopen, if_false, casc_registry_remove_file, registry_remove, hs,
      hreg, if_true]
    rfl
  · rfl
  · rfl
  · rfl
  · rfl
  · rfl

theorem finder_close_closed {σ : Type} (P : Port) (E : Engine σ)
    (hne : P.ERROR_INVALID_HANDLE ≠ P.ERROR_SUCCESS) (w : World σ) (j : Nat)
    (finder : CASC_Finder) (hj : w.finders[j]? = some finder) (h0 : finder.handle = 0) :
    finder_close P E w j =
      .ok (w.SetLastError P.ERROR_INVALID_HANDLE, invalid_handle P) := by
  unfold finder_close
  simp only [hj, h0, if_true, World.SetLastError, casc_result_invalid_handle P hne,
    invalid_handle]

/-- Closing an open, registered finder, whatever `CascFindClose` returns. -/
theorem finder_close_open {σ : Type} (P : Port) (E : Engine σ) (w : World σ) (j : Nat)
    (finder : CASC_Finder) (t : Table) (hj : w.finders[j]? = some finder)
    (hopen : finder.handle ≠ 0) (hs : finder.storage = true)
    (hreg : w.registry = some t) :
    ∃ (w' : World σ) (status : Bool),
      finder_close P E w j =
        .ok (w', .values (casc_result P w'.lastError (cint status))) ∧
      w'.finders = w.finders.set j { finder with handle := 0 } ∧
      w'.files = w.files ∧ w'.storage = w.storage ∧
      w'.registry = some (t.rawset finder.handle none) ∧
      w'.eng = (E.CascFindClose w.eng finder.handle).next := by
  refine ⟨{ eng := (E.CascFindClose w.eng finder.handle).next,
            lastError := (E.CascFindClose w.eng finder.handle).err.getD w.lastError,
            storage := w.storage,
            files := w.files,
            finders := w.finders.set j { finder with handle := 0 },
            registry := some (t.rawset finder.handle none) },
    (E.CascFindClose w.eng finder.handle).val, ?_, ?_, ?_, ?_, ?_, ?_⟩
  · unfold finder_close
    simp only [hj, hopen, if_false, casc_registry_remove_finder, registry_remove, hs,
      hreg, if_true]
    rfl
  · rfl
  · rfl
  · rfl
  · rfl
  · rfl

theorem file_close_closed_values {σ : Type} (P : Port) (E : Engine σ) (w : World σ)
    (i : Nat) (file : CASC_File) (hfile : w.files[i]? = some file)
    (h0 : file.handle = 0) :
    file_close P E w i =
      .ok (w.SetLastError P.ERROR_INVALID_HANDLE,
           .values (casc_result P P.ERROR_INVALID_HANDLE 0)) := by
  obtain ⟨fh, fs⟩ := file
  simp only at h0
  subst h0
  unfold file_close
  simp only [hfile, if_true, World.SetLastError, set_same w.files i _ hfile]

theorem finder_close_closed_values {σ : Type} (P : Port) (E : Engine σ) (w : World σ)
    (j : Nat) (finder : CASC_Finder) (hj : w.finders[j]? = some finder)
    (h0 : finder.handle = 0) :
    finder_close P E w j =
      .ok (w.SetLastError P.ERROR_INVALID_HANDLE,
           .values (casc_result P P.ERROR_INVALID_HANDLE 0)) := by
  unfold finder_close
  simp only [hj, h0, if_true, World.SetLastError]

/-! ## The registry invariant is kept by closing -/

theorem tracked_setLastError {σ : Type} (live : σ → HANDLE → Prop) (w : World σ)
    (t : Table) (e : Nat) (hT : Tracked live w t) : Tracked live (w.SetLastError e) t :=
  ⟨hT.reg, hT.file_ok, hT.finder_ok, hT.entry_file, hT.entry_finder⟩

theorem tracked_file_close {σ : Type} (live : σ → HANDLE → Prop) (w w' : World σ)
    (t : Table) (i : Nat) (file : CASC_File) (hT : Tracked live w t)
    (hfile : w.files[i]? = some file) (hopen : file.handle ≠ 0)
    (hfiles : w'.files = w.files.set i { handle := 0, storage := false })
    (hfinders : w'.finders = w.finders)
    (hreg : w'.registry = some (t.rawset file.handle none))
    (hlive : ∀ h', h' ≠ file.handle → live w.eng h' → live w'.eng h') :
    Tracked live w' (t.rawset file.handle none) := by
  have hmine := (hT.file_ok i file hfile hopen).2.1
  refine ⟨hreg, ?_, ?_, ?_, ?_⟩
  · intro i' file' hf' ho'
    rw [hfiles] at hf'
    by_cases hi : i = i'
    · subst hi
      rw [List.getElem?_set_self (getElem?_lt hfile)] at hf'
      cases hf'
      exact absurd rfl ho'
    · rw [List.getElem?_set_ne hi] at hf'
      obtain ⟨h1, h2, h3⟩ := hT.file_ok i' file' hf' ho'
      have hk : file'.handle ≠ file.handle := by
        intro heq
        rw [heq, hmine] at h2
        cases h2
        exact hi rfl
      exact ⟨h1, by rw [rawget_rawset_none, if_neg hk]; exact h2, hlive _ hk h3⟩
  · intro j finder hj
    rw [hfinders] at hj
    obtain ⟨h1, h2⟩ := hT.finder_ok j finder hj
    refine ⟨h1, fun ho => ?_⟩
    obtain ⟨h3, h4⟩ := h2 ho
    have hk : finder.handle ≠ file.handle := by
      intro heq
      rw [heq, hmine] at h3
      cases h3
    exact ⟨by rw [rawget_rawset_none, if_neg hk]; exact h3, hlive _ hk h4⟩
  · intro k i' hk
    rw [rawget_rawset_none] at hk
    by_cases hkk : k = file.handle
    · simp [hkk] at hk
    · rw [if_neg hkk] at hk
      obtain ⟨file', hf', hh'⟩ := hT.entry_file k i' hk
      have hi : i ≠ i' := by
        intro heq
        subst heq
        rw [hfile] at hf'
        cases hf'
        exact hkk hh'.symm
      exact ⟨file', by rw [hfiles, List.getElem?_set_ne hi]; exact hf', hh'⟩
  · intro k j hk
    rw [rawget_rawset_none] at hk
    by_cases hkk : k = file.handle
    · simp [hkk] at hk
    · rw [if_neg hkk] at hk
      rw [hfinders]
      exact hT.entry_finder k j hk

theorem tracked_finder_close {σ : Type} (live : σ → HANDLE → Prop) (w w' : World σ)
    (t : Table) (j : Nat) (finder : CASC_Finder) (hT : Tracked live w t)
    (hj : w.finders[j]? = some finder) (hopen : finder.handle ≠ 0)
    (hfinders : w'.finders = w.finders.set j { finder with handle := 0 })
    (hfiles : w'.files = w.files)
    (hreg : w'.registry = some (t.rawset finder.handle none))
    (hlive : ∀ h', h' ≠ finder.handle → live w.eng h' → live w'.eng h') :
    Tracked live w' (t.rawset finder.handle none) := by
  have hmine := ((hT.finder_ok j finder hj).2 hopen).1
  refine ⟨hreg, ?_, ?_, ?_, ?_⟩
  · intro i file hf ho
    rw [hfiles] at hf
    obtain ⟨h1, h2, h3⟩ := hT.file_ok i file hf ho
    have hk : file.handle ≠ finder.handle := by
      intro heq
      rw [heq, hmine] at h2
      cases h2
    exact ⟨h1, by rw [rawget_rawset_none, if_neg hk]; exact h2, hlive _ hk h3⟩
  · intro j' finder' hj'
    rw [hfinders] at hj'
    by_cases hjj : j = j'
    · subst hjj
      rw [List.getElem?_set_self (getElem?_lt hj)] at hj'
      cases hj'
      exact ⟨(hT.finder_ok j finder hj).1, fun ho => absurd rfl ho⟩
    · rw [List.getElem?_set_ne hjj] at hj'
      obtain ⟨h1, h2⟩ := hT.finder_ok j' finder' hj'
      refine ⟨h1, fun ho => ?_⟩
      obtain ⟨h3, h4⟩ := h2 ho
      have hk : finder'.handle ≠ finder.handle := by
        intro heq
        rw [heq, hmine] at h3
        cases h3
        exact hjj rfl
      exact ⟨by rw [rawget_rawset_none, if_neg hk]; exact h3, hlive _ hk h4⟩
  · intro k i hk
    rw [rawget_rawset_none] at hk
    by_cases hkk : k = finder.handle
    · simp [hkk] at hk
    · rw [if_neg hkk] at hk
      rw [hfiles]
      exact hT.entry_file k i hk
  · intro k j' hk
    rw [rawget_rawset_none] at hk
    by_cases hkk : k = finder.handle
    · simp [hkk] at hk
    · rw [if_neg hkk] at hk
      rw [hfinders, List.length_set]
      exact hT.entry_finder k j' hk

/-! ## The cascade -/

/-- The `lua_next` loop of `casc_registry_close`, run over keys that cover the
handles of all open children, closes every child. -/
theorem cascade_loop {σ : Type} (P : Port) (E : Engine σ) (live : σ → HANDLE → Prop)
    (hcf : ∀ s h h', h' ≠ h → live s h' → live (E.CascCloseFile s h).next h')
    (hcn : ∀ s h h', h' ≠ h → live s h' → live (E.CascFindClose s h).next h') :
    ∀ (keys : List HANDLE) (w : World σ) (t : Table), Tracked live w t →
      (∀ (i : Nat) (file : CASC_File), w.files[i]? = some file → file.handle ≠ 0 →
        file.handle ∈ keys) →
      (∀ (j : Nat) (finder : CASC_Finder), w.finders[j]? = some finder →
        finder.handle ≠ 0 → finder.handle ∈ keys) →
      ∃ (w' : World σ) (t' : Table),
        casc_registry_close_loop P E keys w = .ok (w', none) ∧ Tracked live w' t' ∧
        AllClosed w' ∧ w'.storage = w.storage ∧
        w'.files.length = w.files.length ∧ w'.finders.length = w.finders.length := by
  intro keys
  induction keys with
  | nil =>
    intro w t hT hcf' hcn'
    refine ⟨w, t, rfl, hT, ⟨?_, ?_⟩, rfl, rfl, rfl⟩
    · intro i file hf
      by_contra ho
      exact absurd (hcf' i file hf ho) (List.not_mem_nil _)
    · intro j finder hj
      by_contra ho
      exact absurd (hcn' j finder hj ho) (List.not_mem_nil _)
  | cons k keys ih =>
    intro w t hT hcf' hcn'
    unfold casc_registry_close_loop
    simp only [hT.reg]
    cases hk : t.rawget k with
    | none =>
      simp only
      apply ih w t hT
      · intro i file hf ho
        rcases List.mem_cons.mp (hcf' i file hf ho) with heq | hmem
        · have := (hT.file_ok i file hf ho).2.1
          rw [heq, hk] at this
          cases this
        · exact hmem
      · intro j finder hj ho
        rcases List.mem_cons.mp (hcn' j finder hj ho) with heq | hmem
        · have := ((hT.finder_ok j finder hj).2 ho).1
          rw [heq, hk] at this
          cases this
        · exact hmem
    | some o =>
      cases o with
      | file i =>
        have hlt : i < w.files.length := by
          obtain ⟨file, hf, _⟩ := hT.entry_file k i hk
          exact getElem?_lt hf
        have hfile : w.files[i]? = some w.files[i] := List.getElem?_eq_getElem hlt
        by_cases h0 : (w.files[i]).handle = 0
        · have hclose := file_close_closed_values P E w i _ hfile h0
          obtain ⟨w', t', hw', hT', hall, hst, hfl, hnl⟩ := ih
            (w.SetLastError P.ERROR_INVALID_HANDLE) t
            (tracked_setLastError live w t _ hT)
            (by
              intro i' file' hf' ho'
              rcases List.mem_cons.mp (hcf' i' file' hf' ho') with heq | hmem
              · have h2 := (hT.file_ok i' file' hf' ho').2.1
                rw [heq, hk] at h2
                cases h2
                have hf2 : w.files[i]? = some file' := hf'
                rw [hfile] at hf2
                cases hf2
                exact absurd h0 ho'
              · exact hmem)
            (by
              intro j finder hj ho
              rcases List.mem_cons.mp (hcn' j finder hj ho) with heq | hmem
              · have h2 := ((hT.finder_ok j finder hj).2 ho).1
                rw [heq, hk] at h2
                cases h2
              · exact hmem)
          refine ⟨w', t', ?_, hT', hall, hst, hfl, hnl⟩
          simp only [gc, hclose]
          exact hw'
        · obtain ⟨hs, hmine, _⟩ := hT.file_ok i _ hfile h0
          obtain ⟨w1, status, hclose, hfiles, hfinders, hstor, hreg, heng⟩ :=
            file_close_open P E w i _ t hfile h0 hs hT.reg
          have hT1 := tracked_file_close live w w1 t i _ hT hfile h0 hfiles hfinders hreg
            (by intro h' hne hl; rw [heng]; exact hcf _ _ _ hne hl)
          obtain ⟨w', t', hw', hT', hall, hst, hfl, hnl⟩ := ih w1 _ hT1
            (by
              intro i' file' hf' ho'
              rw [hfiles] at hf'
              by_cases hi : i = i'
              · subst hi
                rw [List.getElem?_set_self hlt] at hf'
                cases hf'
                exact absurd rfl ho'
              · rw [List.getElem?_set_ne hi] at hf'
                rcases List.mem_cons.mp (hcf' i' file' hf' ho') with heq | hmem
                · have h2 := (hT.file_ok i' file' hf' ho').2.1
                  rw [heq, hk] at h2
                  cases h2
                  exact absurd rfl hi
                · exact hmem)
            (by
              intro j finder hj ho
              rw [hfinders] at hj
              rcases List.mem_cons.mp (hcn' j finder hj ho) with heq | hmem
              · have h2 := ((hT.finder_ok j finder hj).2 ho).1
                rw [heq, hk] at h2
                cases h2
              · exact hmem)
          refine ⟨w', t', ?_, hT', hall, by rw [hst, hstor], ?_, by rw [hnl, hfinders]⟩
          · simp only [gc, hclose]
            exact hw'
          · rw [hfl, hfiles, List.length_set]
      | finder j =>
        have hlt := hT.entry_finder k j hk
        have hj : w.finders[j]? = some w.finders[j] := List.getElem?_eq_getElem hlt
        by_cases h0 : (w.finders[j]).handle = 0
        · have hclose := finder_close_closed_values P E w j _ hj h0
          obtain ⟨w', t', hw', hT', hall, hst, hfl, hnl⟩ := ih
            (w.SetLastError P.ERROR_INVALID_HANDLE) t
            (tracked_setLastError live w t _ hT)
            (by
              intro i file hf ho
              rcases List.mem_cons.mp (hcf' i file hf ho) with heq | hmem
              · have h2 := (hT.file_ok i file hf ho).2.1
                rw [heq, hk] at h2
                cases h2
              · exact hmem)
            (by
              intro j' finder' hj' ho'
              rcases List.mem_cons.mp (hcn' j' finder' hj' ho') with heq | hmem
              · have h2 := ((hT.finder_ok j' finder' hj').2 ho').1
                rw [heq, hk] at h2
                cases h2
                have hj2 : w.finders[j]? = some finder' := hj'
                rw [hj] at hj2
                cases hj2
                exact absurd h0 ho'
              · exact hmem)
          refine ⟨w', t', ?_, hT', hall, hst, hfl, hnl⟩
          simp only [gc, hclose]
          exact hw'
        · obtain ⟨hs, hrest⟩ := hT.finder_ok j _ hj
          obtain ⟨w1, status, hclose, hfinders, hfiles, hstor, hreg, heng⟩ :=
            finder_close_open P E w j _ t hj h0 hs hT.reg
          have hT1 := tracked_finder_close live w w1 t j _ hT hj h0 hfinders hfiles hreg
            (by intro h' hne hl; rw [heng]; exact hcn _ _ _ hne hl)
          obtain ⟨w', t', hw', hT', hall, hst, hfl, hnl⟩ := ih w1 _ hT1
            (by
              intro i file hf ho
              rw [hfiles] at hf
              rcases List.mem_cons.mp (hcf' i file hf ho) with heq | hmem
              · have h2 := (hT.file_ok i file hf ho).2.1
                rw [heq, hk] at h2
                cases h2
              · exact hmem)
            (by
              intro j' finder' hj' ho'
              rw [hfinders] at hj'
              by_cases hjj : j = j'
              · subst hjj
                rw [List.getElem?_set_self hlt] at hj'
                cases hj'
                exact absurd rfl ho'
              · rw [List.getElem?_set_ne hjj] at hj'
                rcases List.mem_cons.mp (hcn' j' finder' hj' ho') with heq | hmem
                · have h2 := ((hT.finder_ok j' finder' hj').2 ho').1
                  rw [heq, hk] at h2
                  cases h2
                  exact absurd rfl hjj
                · exact hmem)
          refine ⟨w', t', ?_, hT', hall, by rw [hst, hstor], by rw [hfl, hfiles], ?_⟩
          · simp only [gc, hclose]
            exact hw'
          · rw [hnl, hfinders, List.length_set]

/-- Closing an open storage whose registry is sound closes every child,
discards the registry and nulls the storage handle, whatever the engine
returns from the release calls. -/
theorem storage_close_tracked {σ : Type} (P : Port) (E : Engine σ)
    (live : σ → HANDLE → Prop)
    (hcf : ∀ s h h', h' ≠ h → live s h' → live (E.CascCloseFile s h).next h')
    (hcn : ∀ s h h', h' ≠ h → live s h' → live (E.CascFindClose s h).next h')
    (w : World σ) (t : Table) (hT : Tracked live w t) (hopen : w.storage.handle ≠ 0) :
    ∃ (w' : World σ) (status : Bool),
      storage_close P E w =
        .ok (w', .values (casc_result P w'.lastError (cint status))) ∧
      AllClosed w' ∧ w'.registry = none ∧ w'.storage.handle = 0 ∧
      w'.files.length = w.files.length ∧ w'.finders.length = w.finders.length := by
  obtain ⟨w1, t1, hloop, _, hall, hst, hfl, hnl⟩ := cascade_loop P E live hcf hcn
    (t.map Prod.fst) w t hT
    (fun i file hf ho => rawget_some_mem t _ _ (hT.file_ok i file hf ho).2.1)
    (fun j finder hj ho => rawget_some_mem t _ _ ((hT.finder_ok j finder hj).2 ho).1)
  refine ⟨{ eng := (E.CascCloseStorage w1.eng w1.storage.handle).next,
            lastError := (E.CascCloseStorage w1.eng w1.storage.handle).err.getD
              w1.lastError,
            storage := { handle := 0 }, files := w1.files, finders := w1.finders,
            registry := none },
    (E.CascCloseStorage w1.eng w1.storage.handle).val, ?_, hall, rfl, rfl, hfl, hnl⟩
  unfold storage_close
  simp only [hopen, if_false, casc_registry_close, hT.reg, hloop]
  rfl

/-! ## The registry invariant is kept by every call -/

theorem tracked_init {σ : Type} (live : σ → HANDLE → Prop) (w : World σ)
    (hreg : w.registry = some []) (hfiles : w.files = []) (hfinders : w.finders = []) :
    Tracked live w [] := by
  refine ⟨hreg, ?_, ?_, ?_, ?_⟩
  · intro i file hf
    rw [hfiles] at hf
    simp at hf
  · intro j finder hj
    rw [hfinders] at hj
    simp at hj
  · intro k i hk
    simp [Table.rawget] at hk
  · intro k j hk
    simp [Table.rawget] at hk

theorem tracked_native {σ α : Type} (live : σ → HANDLE → Prop) (w : World σ) (t : Table)
    (c : Call σ α) (hT : Tracked live w t)
    (hkeep : ∀ h, live w.eng h → live c.next h) : Tracked live (w.native c).1 t := by
  refine ⟨hT.reg, ?_, ?_, hT.entry_file, hT.entry_finder⟩
  · intro i file hf ho
    obtain ⟨h1, h2, h3⟩ := hT.file_ok i file hf ho
    exact ⟨h1, h2, hkeep _ h3⟩
  · intro j finder hj
    obtain ⟨h1, h2⟩ := hT.finder_ok j finder hj
    exact ⟨h1, fun ho => ⟨(h2 ho).1, hkeep _ (h2 ho).2⟩⟩

theorem tracked_file_close_any {σ : Type} (P : Port) (E : Engine σ)
    (live : σ → HANDLE → Prop) (laws : EngineLaws E live) (w w1 : World σ) (t : Table)
    (i : Nat) (r : Ret) (hT : Tracked live w t)
    (hrun : file_close P E w i = .ok (w1, r)) :
    ∃ t1, Tracked live w1 t1 ∧ w1.storage = w.storage := by
  cases hfile : w.files[i]? with
  | none =>
    unfold file_close at hrun
    simp only [hfile] at hrun
    cases hrun
    exact ⟨t, hT, rfl⟩
  | some file =>
    by_cases h0 : file.handle = 0
    · rw [file_close_closed_values P E w i file hfile h0] at hrun
      cases hrun
      exact ⟨t, tracked_setLastError live w t _ hT, rfl⟩
    · obtain ⟨hs, _, _⟩ := hT.file_ok i file hfile h0
      obtain ⟨w', status, hclose, hfiles, hfinders, hstor, hreg, heng⟩ :=
        file_close_open P E w i file t hfile h0 hs hT.reg
      rw [hclose] at hrun
      cases hrun
      exact ⟨_, tracked_file_close live w w1 t i file hT hfile h0 hfiles hfinders hreg
        (by intro h' hne hl; rw [heng]; exact laws.close_keeps _ _ _ hne hl), hstor⟩

theorem tracked_storage_files {σ : Type} (P : Port) (live : σ → HANDLE → Prop)
    (w : World σ) (t : Table) (pattern : Option Bytes) (plain : Bool)
    (hT : Tracked live w t) :
    Tracked live (storage_files P w pattern plain).1 t ∧
      (storage_files P w pattern plain).1.storage = w.storage := by
  unfold storage_files
  by_cases h0 : w.storage.handle = 0
  · simp only [h0, if_true]
    exact ⟨tracked_setLastError live w t _ hT, rfl⟩
  · simp only [h0, if_false, casc_finder_initialize]
    refine ⟨⟨hT.reg, hT.file_ok, ?_, hT.entry_file, ?_⟩, trivial⟩
    · intro j finder hj
      simp only at hj
      by_cases hlt : j < w.finders.length
      · rw [List.getElem?_append_left hlt] at hj
        exact hT.finder_ok j finder hj
      · have hge : w.finders.length ≤ j := by omega
        rw [List.getElem?_append_right hge] at hj
        cases hjj : j - w.finders.length with
        | zero =>
          rw [hjj] at hj
          simp at hj
          subst hj
          exact ⟨rfl, fun ho => absurd rfl ho⟩
        | succ n =>
          rw [hjj] at hj
          simp at hj
    · intro k j hk
      have := hT.entry_finder k j hk
      simp only [List.length_append, List.length_singleton]
      omega

theorem tracked_storage_open {σ : Type} (P : Port) (E : Engine σ)
    (live : σ → HANDLE → Prop) (laws : EngineLaws E live) (w w1 : World σ) (t : Table)
    (name : Bytes) (r : Ret) (hT : Tracked live w t)
    (hrun : storage_open P E w name = .ok (w1, r)) :
    ∃ t1, Tracked live w1 t1 ∧ w1.storage = w.storage := by
  unfold storage_open at hrun
  by_cases h0 : w.storage.handle = 0
  · simp only [h0, if_true] at hrun
    cases hrun
    exact ⟨t, tracked_setLastError live w t _ hT, rfl⟩
  · simp only [h0, if_false, casc_file_initialize] at hrun
    have hTn := tracked_native live w t (E.CascOpenFile w.eng w.storage.handle name) hT
      (fun h hl => laws.open_keeps _ _ _ h hl)
    by_cases hok : (E.CascOpenFile w.eng w.storage.handle name).val.1 = false
    · simp only [native_val, hok, if_true] at hrun
      cases hrun
      exact ⟨t, hTn, rfl⟩
    · have hok1 : (E.CascOpenFile w.eng w.storage.handle name).val.1 = true := by
        simpa using hok
      obtain ⟨hfresh, hnew⟩ := laws.open_fresh w.eng w.storage.handle name hok1
      simp only [native_val, hok, if_false, casc_registry_insert_file] at hrun
      have hlen : (w.native (E.CascOpenFile w.eng w.storage.handle name)).1.files =
          w.files := rfl
      simp only [hlen, List.getElem?_concat_length, registry_insert, if_true] at hrun
      have hreg1 : (w.native (E.CascOpenFile w.eng w.storage.handle name)).1.registry =
          some t := hT.reg
      simp only [hreg1] at hrun
      cases hrun
      refine ⟨_, ⟨rfl, ?_, ?_, ?_, ?_⟩, rfl⟩
      · intro i file hf ho
        simp only at hf
        by_cases hlt : i < w.files.length
        · rw [List.getElem?_append_left hlt] at hf
          obtain ⟨h1, h2, h3⟩ := hT.file_ok i file hf ho
          have hk : file.handle ≠ (E.CascOpenFile w.eng w.storage.handle name).val.2 := by
            intro heq
            rw [heq] at h3
            exact hfresh h3
          exact ⟨h1, by rw [rawget_rawset_some, if_neg hk]; exact h2,
            laws.open_keeps _ _ _ _ h3⟩
        · have hge : w.files.length ≤ i := by omega
          rw [List.getElem?_append_right hge] at hf
          cases hii : i - w.files.length with
          | zero =>
            rw [hii] at hf
            simp at hf
            subst hf
            have hi : i = w.files.length := by omega
            subst hi
            exact ⟨rfl, by rw [rawget_rawset_some, if_pos rfl], hnew⟩
          | succ n =>
            rw [hii] at hf
            simp at hf
      · intro j finder hj
        obtain ⟨h1, h2⟩ := hT.finder_ok j finder hj
        refine ⟨h1, fun ho => ?_⟩
        obtain ⟨h3, h4⟩ := h2 ho
        have hk : finder.handle ≠ (E.CascOpenFile w.eng w.storage.handle name).val.2 := by
          intro heq
          rw [heq] at h4
          exact hfresh h4
        exact ⟨by rw [rawget_rawset_some, if_neg hk]; exact h3,
          laws.open_keeps _ _ _ _ h4⟩
      · intro k i hk
        rw [rawget_rawset_some] at hk
        by_cases hkk : k = (E.CascOpenFile w.eng w.storage.handle name).val.2
        · rw [if_pos hkk] at hk
          cases hk
          exact ⟨_, List.getElem?_concat_length _ _, hkk.symm⟩
        · rw [if_neg hkk] at hk
          obtain ⟨file, hf, hh⟩ := hT.entry_file k i hk
          exact ⟨file, by
            simp only
            rw [List.getElem?_append_left (getElem?_lt hf)]
            exact hf, hh⟩
      · intro k j hk
        rw [rawget_rawset_some] at hk
        by_cases hkk : k = (E.CascOpenFile w.eng w.storage.handle name).val.2
        · rw [if_pos hkk] at hk
          cases hk
        · rw [if_neg hkk] at hk
          exact hT.entry_finder k j hk

/-- Opening the cursor of a finder and registering the finder under it keeps
the invariant, also when the engine returned no cursor. -/
theorem tracked_first {σ : Type} (E : Engine σ) (live : σ → HANDLE → Prop)
    (laws : EngineLaws E live) (w : World σ) (t : Table) (j : Nat)
    (finder : CASC_Finder) (hT : Tracked live w t) (hj : w.finders[j]? = some finder) :
    Tracked live
      { eng := (E.CascFindFirstFile w.eng w.storage.handle).next,
        lastError := (E.CascFindFirstFile w.eng w.storage.handle).err.getD w.lastError,
        storage := w.storage, files := w.files,
        finders := w.finders.set j
          { finder with handle := (E.CascFindFirstFile w.eng w.storage.handle).val.1 },
        registry := some (t.rawset (E.CascFindFirstFile w.eng w.storage.handle).val.1
          (some (.finder j))) }
      (t.rawset (E.CascFindFirstFile w.eng w.storage.handle).val.1 (some (.finder j))) := by
  have hlt := getElem?_lt hj
  have hdiff : ∀ h, h ≠ 0 → live w.eng h →
      h ≠ (E.CascFindFirstFile w.eng w.storage.handle).val.1 := by
    intro h hne hl heq
    have hnz : (E.CascFindFirstFile w.eng w.storage.handle).val.1 ≠ 0 := by
      rw [← heq]
      exact hne
    rw [heq] at hl
    exact (laws.first_fresh w.eng w.storage.handle hnz).1 hl
  refine ⟨rfl, ?_, ?_, ?_, ?_⟩
  · intro i file hf ho
    obtain ⟨h1, h2, h3⟩ := hT.file_ok i file hf ho
    exact ⟨h1, by rw [rawget_rawset_some, if_neg (hdiff _ ho h3)]; exact h2,
      laws.first_keeps _ _ _ h3⟩
  · intro j' finder' hj'
    simp only at hj'
    by_cases hjj : j = j'
    · subst hjj
      rw [List.getElem?_set_self hlt] at hj'
      cases hj'
      refine ⟨(hT.finder_ok j finder hj).1, fun ho => ?_⟩
      exact ⟨by rw [rawget_rawset_some, if_pos rfl],
        (laws.first_fresh w.eng w.storage.handle ho).2⟩
    · rw [List.getElem?_set_ne hjj] at hj'
      obtain ⟨h1, h2⟩ := hT.finder_ok j' finder' hj'
      refine ⟨h1, fun ho => ?_⟩
      obtain ⟨h3, h4⟩ := h2 ho
      exact ⟨by rw [rawget_rawset_some, if_neg (hdiff _ ho h4)]; exact h3,
        laws.first_keeps _ _ _ h4⟩
  · intro k i hk
    rw [rawget_rawset_some] at hk
    by_cases hkk : k = (E.CascFindFirstFile w.eng w.storage.handle).val.1
    · rw [if_pos hkk] at hk
      cases hk
    · rw [if_neg hkk] at hk
      exact hT.entry_file k i hk
  · intro k j' hk
    rw [rawget_rawset_some] at hk
    simp only [List.length_set]
    by_cases hkk : k = (E.CascFindFirstFile w.eng w.storage.handle).val.1
    · rw [if_pos hkk] at hk
      cases hk
      exact hlt
    · rw [if_neg hkk] at hk
      exact hT.entry_finder k j' hk

/-- The loop of `finder_iterator` keeps the invariant; when it ends with
status `0` the finder is bound. -/
theorem tracked_finder_loop {σ : Type} (P : Port) (E : Engine σ)
    (live : σ → HANDLE → Prop) (laws : EngineLaws E live) (j : Nat)
    (pattern : Option Bytes) (plain : Bool) :
    ∀ (fuel : Nat) (w w1 : World σ) (t : Table) (status : Bool) (name : Option Bytes),
      Tracked live w t →
      finder_iterator_loop P E j pattern plain fuel w = .ok (w1, status, name) →
      ∃ t1, Tracked live w1 t1 ∧ w1.storage = w.storage ∧
        (status = false →
          ∃ finder, w1.finders[j]? = some finder ∧ finder.handle ≠ 0) := by
  intro fuel
  induction fuel with
  | zero =>
    intro w w1 t status name _ hrun
    simp [finder_iterator_loop] at hrun
  | succ fuel ih =>
    intro w w1 t status name hT hrun
    unfold finder_iterator_loop at hrun
    cases hj : w.finders[j]? with
    | none => simp [hj] at hrun
    | some finder =>
      simp only [hj] at hrun
      have hlt := getElem?_lt hj
      by_cases h0 : finder.handle = 0
      · have hs := (hT.finder_ok j finder hj).1
        have hT2 := tracked_first E live laws w t j finder hT hj
        simp only [hs] at hT2
        simp only [h0, if_true, World.native, casc_registry_insert_finder,
          List.getElem?_set_self hlt, registry_insert, hs, hT.reg] at hrun
        simp only [Bool.true_eq_false, if_false] at hrun
        cases pattern with
        | none =>
          simp only [if_true] at hrun
          cases hrun
          exact ⟨_, hT2, rfl, fun hst => by cases hst⟩
        | some p =>
          simp only at hrun
          by_cases hacc : P.string_find
              (E.CascFindFirstFile w.eng w.storage.handle).val.2 p plain = true
          · rw [if_pos hacc] at hrun
            cases hrun
            exact ⟨_, hT2, rfl, fun hst => by cases hst⟩
          · rw [if_neg hacc] at hrun
            obtain ⟨t1, hT1, hst1, hb⟩ := ih _ w1 _ status name hT2 hrun
            exact ⟨t1, hT1, hst1, hb⟩
      · have hTn := tracked_native live w t (E.CascFindNextFile w.eng finder.handle) hT
          (fun h hl => laws.next_keeps _ _ _ hl)
        simp only [h0, if_false] at hrun
        by_cases hok : (w.native (E.CascFindNextFile w.eng finder.handle)).2.1 = false
        · rw [if_pos hok] at hrun
          cases hrun
          exact ⟨t, hTn, rfl, fun _ => ⟨finder, hj, h0⟩⟩
        · rw [if_neg hok] at hrun
          have hok1 : (w.native (E.CascFindNextFile w.eng finder.handle)).2.1 = true := by
            simpa using hok
          cases pattern with
          | none =>
            simp only [hok1, if_true] at hrun
            cases hrun
            exact ⟨t, hTn, rfl, fun hst => by cases hst⟩
          | some p =>
            simp only at hrun
            by_cases hacc : P.string_find
                (w.native (E.CascFindNextFile w.eng finder.handle)).2.2 p plain = true
            · rw [if_pos hacc] at hrun
              cases hrun
              exact ⟨t, hTn, rfl, fun hst => by cases hst⟩
            · rw [if_neg hacc] at hrun
              obtain ⟨t1, hT1, hst1, hb⟩ := ih _ w1 _ status name hTn hrun
              exact ⟨t1, hT1, hst1, hb⟩

theorem tracked_finder_iterator {σ : Type} (P : Port) (E : Engine σ)
    (live : σ → HANDLE → Prop) (laws : EngineLaws E live) (fuel : Nat) (w w1 : World σ)
    (t : Table) (j : Nat) (pattern : Option Bytes) (plain : Bool) (r : Ret)
    (hT : Tracked live w t)
    (hrun : finder_iterator P E fuel w j pattern plain = .ok (w1, r)) :
    ∃ t1, Tracked live w1 t1 ∧ w1.storage = w.storage := by
  unfold finder_iterator at hrun
  cases hj : w.finders[j]? with
  | none =>
    simp only [hj] at hrun
    cases hrun
    exact ⟨t, hT, rfl⟩
  | some finder =>
    simp only [hj] at hrun
    cases hloop : finder_iterator_loop P E j pattern plain fuel w with
    | error e => simp [hloop] at hrun
    | ok res =>
      obtain ⟨w2, status, name⟩ := res
      obtain ⟨t2, hT2, hst2, hb⟩ := tracked_finder_loop P E live laws j pattern plain
        fuel w w2 t status name hT hloop
      cases status with
      | true =>
        simp only [hloop] at hrun
        cases hrun
        exact ⟨t2, hT2, hst2⟩
      | false =>
        obtain ⟨f2, hj2, ho2⟩ := hb rfl
        obtain ⟨w3, st3, hclose, hfinders, hfiles, hstor, hreg, heng⟩ :=
          finder_close_open P E w2 j f2 t2 hj2 ho2 (hT2.finder_ok j f2 hj2).1 hT2.reg
        have hT3 := tracked_finder_close live w2 w3 t2 j f2 hT2 hj2 ho2 hfinders hfiles
          hreg (by intro h' hne hl; rw [heng]; exact laws.find_close_keeps _ _ _ hne hl)
        simp only [hloop, hclose] at hrun
        by_cases herr : w2.lastError = P.ERROR_SUCCESS
        · rw [if_pos herr] at hrun
          cases hrun
          exact ⟨_, hT3, by rw [hstor, hst2]⟩
        · rw [if_neg herr] at hrun
          cases hrun
          exact ⟨_, tracked_setLastError live w3 _ _ hT3, by
            show w3.storage = w.storage
            rw [hstor, hst2]⟩

/-- Every sequence of `open`, `files`, iterator and `close` calls keeps the
registry invariant and the storage handle. -/
theorem tracked_run {σ : Type} (P : Port) (E : Engine σ) (live : σ → HANDLE → Prop)
    (laws : EngineLaws E live) (fuel : Nat) :
    ∀ (ops : List Op) (w w1 : World σ) (t : Table), Tracked live w t →
      run P E fuel ops w = .ok w1 →
      ∃ t1, Tracked live w1 t1 ∧ w1.storage = w.storage := by
  intro ops
  induction ops with
  | nil =>
    intro w w1 t hT hrun
    simp only [run] at hrun
    cases hrun
    exact ⟨t, hT, rfl⟩
  | cons op ops ih =>
    intro w w1 t hT hrun
    simp only [run] at hrun
    cases hop : op.run P E fuel w with
    | error e => simp [hop] at hrun
    | ok res =>
      obtain ⟨w2, r⟩ := res
      simp only [hop] at hrun
      have hstep : ∃ t2, Tracked live w2 t2 ∧ w2.storage = w.storage := by
        cases op with
        | openFile name => exact tracked_storage_open P E live laws w w2 t name r hT hop
        | files pattern plain =>
          simp only [Op.run, Except.ok.injEq] at hop
          have h := tracked_storage_files P live w t pattern plain hT
          rw [hop] at h
          exact ⟨t, h.1, h.2⟩
        | step j pattern plain =>
          exact tracked_finder_iterator P E live laws fuel w w2 t j pattern plain r hT hop
        | closeFile i => exact tracked_file_close_any P E live laws w w2 t i r hT hop
      obtain ⟨t2, hT2, hst2⟩ := hstep
      obtain ⟨t1, hT1, hst1⟩ := ih w2 w1 t2 hT2 hrun
      exact ⟨t1, hT1, by rw [hst1, hst2]⟩

/-! ## C1: the cascading close -/

/-- Every method of a closed file returns the Invalid-Handle triple and
changes nothing but the last error. -/
theorem file_call_closed {σ : Type} (P : Port) (E : Engine σ) (fuel : Nat)
    (hne : P.ERROR_INVALID_HANDLE ≠ P.ERROR_SUCCESS) (w : World σ) (i : Nat)
    (file : CASC_File) (hfile : w.files[i]? = some file) (h0 : file.handle = 0)
    (c : FileCall) :
    c.run P E fuel w i =
      .ok (w.SetLastError P.ERROR_INVALID_HANDLE, invalid_handle P) := by
  cases c with
  | seek mode offset =>
    simp [FileCall.run, file_seek, hfile, h0, World.SetLastError,
      casc_result_invalid_handle P hne, invalid_handle]
  | read formats =>
    simp [FileCall.run, file_read, hfile, h0, World.SetLastError,
      casc_result_invalid_handle P hne, invalid_handle]
  | setvbuf =>
    simp [FileCall.run, file_setvbuf, hfile, h0, World.SetLastError,
      casc_result_invalid_handle P hne, invalid_handle]
  | flush =>
    simp [FileCall.run, file_flush, hfile, h0, World.SetLastError,
      casc_result_invalid_handle P hne, invalid_handle]
  | close => exact file_close_closed P E hne w i file hfile h0

theorem file_calls_closed {σ : Type} (P : Port) (E : Engine σ) (fuel : Nat)
    (hne : P.ERROR_INVALID_HANDLE ≠ P.ERROR_SUCCESS) :
    ∀ (calls : List (Nat × FileCall)) (w : World σ),
      (∀ (i : Nat) (file : CASC_File), w.files[i]? = some file → file.handle = 0) →
      (∀ c ∈ calls, c.1 < w.files.length) →
      ∃ w', file_calls P E fuel calls w =
        .ok (w', List.replicate calls.length (invalid_handle P)) := by
  intro calls
  induction calls with
  | nil =>
    intro w _ _
    exact ⟨w, rfl⟩
  | cons c cs ih =>
    intro w hall hidx
    obtain ⟨i, call⟩ := c
    have hlt : i < w.files.length := hidx (i, call) (List.mem_cons_self _ _)
    have hfile : w.files[i]? = some w.files[i] := List.getElem?_eq_getElem hlt
    have hstep := file_call_closed P E fuel hne w i _ hfile (hall i _ hfile) call
    obtain ⟨w', hw'⟩ := ih (w.SetLastError P.ERROR_INVALID_HANDLE) hall
      (fun c hc => hidx c (List.mem_cons_of_mem _ hc))
    refine ⟨w', ?_⟩
    simp only [file_calls, hstep, hw', List.length_cons, List.replicate_succ]

theorem storage_initialize_fresh {σ : Type} (P : Port) (E : Engine σ) (s : σ) (e : Nat)
    (path : Bytes) (type : Nat) (w0 : World σ)
    (hinit : casc_storage_initialize P E s e path type = (w0, .values [.storage])) :
    w0.registry = some [] ∧ w0.files = [] ∧ w0.finders = [] := by
  unfold casc_storage_initialize at hinit
  simp only at hinit
  split at hinit
  · simp only [Prod.mk.injEq, Ret.values.injEq] at hinit
    have h2 := hinit.2
    unfold casc_result at h2
    simp only at h2
    split_ifs at h2 <;> simp at h2
  · simp only [Prod.mk.injEq] at hinit
    rw [← hinit.1]
    exact ⟨rfl, rfl, rfl⟩

/-- C1: take the storage returned by `casclib.open` and any sequence of
`open`, `files`, iterator-step and file `close` calls on it, on an engine
that hands out handles not in use.  Then `close` on the storage succeeds in
closing every child: afterwards every file and every finder created from the
storage has a null handle, the registry is discarded, and every later `seek`,
`read`, `setvbuf`, `flush` or `close` on any of the files returns the
Invalid-Handle triple. -/
theorem cascading_close {σ : Type} (P : Port) (E : Engine σ)
    (live : σ → HANDLE → Prop) (laws : EngineLaws E live)
    (hne : P.ERROR_INVALID_HANDLE ≠ P.ERROR_SUCCESS) (fuel : Nat) (s : σ) (e : Nat)
    (path : Bytes) (type : Nat) (w0 : World σ)
    (hinit : casc_storage_initialize P E s e path type = (w0, .values [.storage]))
    (hopen : w0.storage.handle ≠ 0) (ops : List Op) (w : World σ)
    (hrun : run P E fuel ops w0 = .ok w) :
    ∃ (w' : World σ) (status : Bool),
      storage_close P E w =
        .ok (w', .values (casc_result P w'.lastError (cint status))) ∧
      (∀ (i : Nat) (file : CASC_File), w'.files[i]? = some file → file.handle = 0) ∧
      (∀ (j : Nat) (finder : CASC_Finder), w'.finders[j]? = some finder →
        finder.handle = 0) ∧
      w'.registry = none ∧ w'.storage.handle = 0 ∧
      w'.files.length = w.files.length ∧ w'.finders.length = w.finders.length ∧
      ∀ (calls : List (Nat × FileCall)), (∀ c ∈ calls, c.1 < w.files.length) →
        ∃ w'', file_calls P E fuel calls w' =
          .ok (w'', List.replicate calls.length (invalid_handle P)) := by
  obtain ⟨hreg, hfiles, hfinders⟩ := storage_initialize_fresh P E s e path type w0 hinit
  have hT0 := tracked_init live w0 hreg hfiles hfinders
  obtain ⟨t, hT, hst⟩ := tracked_run P E live laws fuel ops w0 w [] hT0 hrun
  obtain ⟨w', status, hclose, hall, hnone, hnull, hfl, hnl⟩ :=
    storage_close_tracked P E live laws.close_keeps laws.find_close_keeps w t hT
      (by rw [hst]; exact hopen)
  refine ⟨w', status, hclose, hall.1, hall.2, hnone, hnull, hfl, hnl, ?_⟩
  intro calls hidx
  exact file_calls_closed P E fuel hne calls w' hall.1
    (fun c hc => by rw [hfl]; exact hidx c hc)

theorem counter_laws : EngineLaws counterEngine counterLive := by
  refine ⟨?_, ?_, ?_, ?_, ?_, ?_, ?_⟩
  · intro s sh name _
    exact ⟨Nat.not_succ_le_self s, Nat.le_refl (s + 1)⟩
  · intro s sh name h hl
    exact Nat.le_succ_of_le hl
  · intro s h h' _ hl
    exact hl
  · intro s sh _
    exact ⟨Nat.not_succ_le_self s, Nat.le_refl (s + 1)⟩
  · intro s sh h hl
    exact Nat.le_succ_of_le hl
  · intro s h h' hl
    exact hl
  · intro s h h' _ hl
    exact hl

theorem cascading_close_witness :
    ∃ (w' : World Nat) (status : Bool),
      storage_close testPort counterEngine
          { eng := 4, lastError := 0, storage := { handle := 1 },
            files := [{ handle := 0, storage := false }, { handle := 4, storage := true }],
            finders := [{ handle := 3, storage := true }],
            registry := some [(4, .file 1), (3, .finder 0)] } =
        .ok (w', .values (casc_result testPort w'.lastError (cint status))) ∧
      (∀ (i : Nat) (file : CASC_File), w'.files[i]? = some file → file.handle = 0) ∧
      (∀ (j : Nat) (finder : CASC_Finder), w'.finders[j]? = some finder →
        finder.handle = 0) ∧
      w'.registry = none ∧ w'.storage.handle = 0 ∧
      w'.files.length = 2 ∧ w'.finders.length = 1 ∧
      ∀ (calls : List (Nat × FileCall)), (∀ c ∈ calls, c.1 < 2) →
        ∃ w'', file_calls testPort counterEngine 4 calls w' =
          .ok (w'', List.replicate calls.length (invalid_handle testPort)) :=
  cascading_close testPort counterEngine counterLive counter_laws (by decide) 4 0 0 [] 0
    counterWorld rfl (by decide)
    [.openFile "a".toList, .files none false, .step 0 none false, .openFile "b".toList,
      .closeFile 0]
    { eng := 4, lastError := 0, storage := { handle := 1 },
      files := [{ handle := 0, storage := false }, { handle := 4, storage := true }],
      finders := [{ handle := 3, storage := true }],
      registry := some [(4, .file 1), (3, .finder 0)] } rfl

/-! ## C8: closing twice -/

theorem tracked_weaken {σ : Type} (live : σ → HANDLE → Prop) (w : World σ) (t : Table)
    (hT : Tracked live w t) : Tracked (fun _ _ => True) w t :=
  ⟨hT.reg, fun i file hf ho => ⟨(hT.file_ok i file hf ho).1, (hT.file_ok i file hf ho).2.1,
      trivial⟩,
    fun j finder hj => ⟨(hT.finder_ok j finder hj).1,
      fun ho => ⟨((hT.finder_ok j finder hj).2 ho).1, trivial⟩⟩,
    hT.entry_file, hT.entry_finder⟩

theorem storage_close_closed {σ : Type} (P : Port) (E : Engine σ)
    (hne : P.ERROR_INVALID_HANDLE ≠ P.ERROR_SUCCESS) (w : World σ)
    (h0 : w.storage.handle = 0) :
    storage_close P E w =
      .ok (w.SetLastError P.ERROR_INVALID_HANDLE, invalid_handle P) := by
  unfold storage_close
  simp only [h0, if_true, World.SetLastError, casc_result_invalid_handle P hne,
    invalid_handle]

/-- C8 at the failing input: after a first `CascFindFirstFile` that returned
no cursor and a second one that returned cursor `7`, the finder is registered
under the `NULL` key (`status = !!finder` in `finder_iterator`) and under `7`;
closing it nulls the handle and removes the entry under `7`, and the entry
under `NULL` still holds the finder: the closed finder is not absent from the
registry. -/
theorem finder_close_leaves_null_entry :
    finder_iterator testPort flakyEngine 4 flakyWorld 0 (some ".txt".toList) false =
      .ok ({ eng := 2, lastError := 2, storage := { handle := 1 }, files := [],
             finders := [{ handle := 7, storage := true }],
             registry := some [(7, .finder 0), (0, .finder 0)] },
           .values [.string "a.txt".toList]) ∧
    finder_close testPort flakyEngine
        { eng := 2, lastError := 2, storage := { handle := 1 }, files := [],
          finders := [{ handle := 7, storage := true }],
          registry := some [(7, .finder 0), (0, .finder 0)] } 0 =
      .ok ({ eng := 2, lastError := 2, storage := { handle := 1 }, files := [],
             finders := [{ handle := 0, storage := true }],
             registry := some [(0, .finder 0)] },
           .values [.boolean true]) ∧
    Table.rawget [(0, .finder 0)] 0 = some (.finder 0) :=
  ⟨rfl, rfl, rfl⟩

/-- What `close` does achieve under the registry invariant: for a storage, a
file and a finder alike, `close` on an
object with a non-null handle leaves the handle null and removes the registry
entry kept under that handle, whatever the engine's release call returned:
the registry of a storage is discarded, a file is absent from the registry
afterwards, and so is a finder whose only entry was the one under its handle.
`close` on an object whose handle is null returns the Invalid-Handle triple,
makes no engine call and changes nothing but the last-error cell.  Hence the
second of two consecutive `close` calls fails with Invalid-Handle. -/
theorem close_idempotent {σ : Type} (P : Port) (E : Engine σ)
    (hne : P.ERROR_INVALID_HANDLE ≠ P.ERROR_SUCCESS) (w : World σ) :
    (w.storage.handle = 0 →
      storage_close P E w =
        .ok (w.SetLastError P.ERROR_INVALID_HANDLE, invalid_handle P)) ∧
    (w.storage.handle ≠ 0 → ∀ t, Tracked (fun _ _ => True) w t →
      ∃ (w' : World σ) (status : Bool),
        storage_close P E w =
          .ok (w', .values (casc_result P w'.lastError (cint status))) ∧
        w'.storage.handle = 0 ∧ w'.registry = none ∧
        storage_close P E w' =
          .ok (w'.SetLastError P.ERROR_INVALID_HANDLE, invalid_handle P)) ∧
    (∀ (i : Nat) (file : CASC_File), w.files[i]? = some file → file.handle = 0 →
      file_close P E w i =
        .ok (w.SetLastError P.ERROR_INVALID_HANDLE, invalid_handle P)) ∧
    (∀ (i : Nat) (file : CASC_File), w.files[i]? = some file → file.handle ≠ 0 →
      ∀ t, Tracked (fun _ _ => True) w t →
      ∃ (w' : World σ) (status : Bool),
        file_close P E w i =
          .ok (w', .values (casc_result P w'.lastError (cint status))) ∧
        w'.files[i]? = some { handle := 0, storage := false } ∧
        w'.registry = some (t.rawset file.handle none) ∧
        (∀ k, (t.rawset file.handle none).rawget k ≠ some (.file i)) ∧
        file_close P E w' i =
          .ok (w'.SetLastError P.ERROR_INVALID_HANDLE, invalid_handle P)) ∧
    (∀ (j : Nat) (finder : CASC_Finder), w.finders[j]? = some finder →
      finder.handle = 0 →
      finder_close P E w j =
        .ok (w.SetLastError P.ERROR_INVALID_HANDLE, invalid_handle P)) ∧
    (∀ (j : Nat) (finder : CASC_Finder), w.finders[j]? = some finder →
      finder.handle ≠ 0 → ∀ t, Tracked (fun _ _ => True) w t →
      ∃ (w' : World σ) (status : Bool),
        finder_close P E w j =
          .ok (w', .values (casc_result P w'.lastError (cint status))) ∧
        w'.finders[j]? = some { finder with handle := 0 } ∧
        w'.registry = some (t.rawset finder.handle none) ∧
        (t.rawset finder.handle none).rawget finder.handle = none ∧
        ((∀ k, t.rawget k = some (.finder j) → k = finder.handle) →
          ∀ k, (t.rawset finder.handle none).rawget k ≠ some (.finder j)) ∧
        finder_close P E w' j =
          .ok (w'.SetLastError P.ERROR_INVALID_HANDLE, invalid_handle P)) := by
  refine ⟨storage_close_closed P E hne w, ?_, ?_, ?_, ?_, ?_⟩
  · intro hopen t hT
    obtain ⟨w', status, hclose, _, hnone, hnull, _, _⟩ :=
      storage_close_tracked P E (fun _ _ => True) (fun _ _ _ _ _ => trivial)
        (fun _ _ _ _ _ => trivial) w t hT hopen
    exact ⟨w', status, hclose, hnull, hnone, storage_close_closed P E hne w' hnull⟩
  · intro i file hfile h0
    exact file_close_closed P E hne w i file hfile h0
  · intro i file hfile hopen t hT
    obtain ⟨hs, _, _⟩ := hT.file_ok i file hfile hopen
    obtain ⟨w', status, hclose, hfiles, _, _, hreg, _⟩ :=
      file_close_open P E w i file t hfile hopen hs hT.reg
    have hnew : w'.files[i]? = some { handle := 0, storage := false } := by
      rw [hfiles, List.getElem?_set_self (getElem?_lt hfile)]
    refine ⟨w', status, hclose, hnew, hreg, ?_, file_close_closed P E hne w' i _ hnew rfl⟩
    intro k hk
    rw [rawget_rawset_none] at hk
    by_cases hkk : k = file.handle
    · simp [hkk] at hk
    · rw [if_neg hkk] at hk
      obtain ⟨file', hf', hh'⟩ := hT.entry_file k i hk
      rw [hfile] at hf'
      cases hf'
      exact hkk hh'.symm
  · intro j finder hj h0
    exact finder_close_closed P E hne w j finder hj h0
  · intro j finder hj hopen t hT
    obtain ⟨w', status, hclose, hfinders, _, _, hreg, _⟩ :=
      finder_close_open P E w j finder t hj hopen (hT.finder_ok j finder hj).1 hT.reg
    have hnew : w'.finders[j]? = some { finder with handle := 0 } := by
      rw [hfinders, List.getElem?_set_self (getElem?_lt hj)]
    refine ⟨w', status, hclose, hnew, hreg, ?_, ?_,
      finder_close_closed P E hne w' j _ hnew rfl⟩
    · rw [rawget_rawset_none, if_pos rfl]
    · intro honly k hk
      rw [rawget_rawset_none] at hk
      by_cases hkk : k = finder.handle
      · simp [hkk] at hk
      · rw [if_neg hkk] at hk
        exact hkk (honly k hk)

theorem close_idempotent_witness :
    ∃ (w' : World Nat) (status : Bool),
      file_close testPort counterEngine
          { eng := 4, lastError := 0, storage := { handle := 1 },
            files := [{ handle := 0, storage := false }, { handle := 4, storage := true }],
            finders := [{ handle := 3, storage := true }],
            registry := some [(4, .file 1), (3, .finder 0)] } 1 =
        .ok (w', .values (casc_result testPort w'.lastError (cint status))) ∧
      w'.files[1]? = some { handle := 0, storage := false } ∧
      w'.registry = some (Table.rawset [(4, .file 1), (3, .finder 0)] 4 none) ∧
      (∀ k, (Table.rawset [(4, .file 1), (3, .finder 0)] 4 none).rawget k ≠
        some (.file 1)) ∧
      file_close testPort counterEngine w' 1 =
        .ok (w'.SetLastError testPort.ERROR_INVALID_HANDLE, invalid_handle testPort) := by
  obtain ⟨t, hT, _⟩ := tracked_run testPort counterEngine counterLive counter_laws 4
    [.openFile "a".toList, .files none false, .step 0 none false, .openFile "b".toList,
      .closeFile 0]
    counterWorld
    { eng := 4, lastError := 0, storage := { handle := 1 },
      files := [{ handle := 0, storage := false }, { handle := 4, storage := true }],
      finders := [{ handle := 3, storage := true }],
      registry := some [(4, .file 1), (3, .finder 0)] }
    [] (tracked_init counterLive counterWorld rfl rfl rfl) rfl
  have ht : t = [(4, .file 1), (3, .finder 0)] := by
    have hreg := hT.reg
    simp only [Option.some.injEq] at hreg
    exact hreg.symm
  subst ht
  exact (close_idempotent testPort counterEngine (by decide)
    { eng := 4, lastError := 0, storage := { handle := 1 },
      files := [{ handle := 0, storage := false }, { handle := 4, storage := true }],
      finders := [{ handle := 3, storage := true }],
      registry := some [(4, .file 1), (3, .finder 0)] }).2.2.2.1 1
    { handle := 4, storage := true } rfl (by decide) _ (tracked_weaken _ _ _ hT)

/-! ## C12: the write stub -/

/-- C12: for every file, open or closed, and every argument list, `write`
returns the Invalid-Handle triple `(nil, message, ERROR_INVALID_HANDLE)`; it
makes no engine call and leaves the handle of the file and the registry as
they are: only the last-error cell is set. -/
theorem write_stub {σ : Type} (P : Port)
    (hne : P.ERROR_INVALID_HANDLE ≠ P.ERROR_SUCCESS) (w : World σ) (i : Nat)
    (file : CASC_File) (hfile : w.files[i]? = some file) (args : List LuaValue) :
    file_write P w i args =
        (w.SetLastError P.ERROR_INVALID_HANDLE, invalid_handle P) ∧
    (file_write P w i args).1.eng = w.eng ∧
    (file_write P w i args).1.files[i]? = some file ∧
    (file_write P w i args).1.registry = w.registry ∧
    (file_write P w i args).1.finders = w.finders ∧
    (file_write P w i args).1.storage = w.storage := by
  have h : file_write P w i args =
      (w.SetLastError P.ERROR_INVALID_HANDLE, invalid_handle P) := by
    unfold file_write
    simp only [hfile, World.SetLastError, casc_result_invalid_handle P hne, invalid_handle]
  rw [h]
  exact ⟨rfl, rfl, hfile, rfl, rfl, rfl⟩

theorem write_stub_witness :
    file_write testPort (streamWorld "ab".toList 0) 0 [.string "x".toList, .integer 3] =
      ({ streamWorld "ab".toList 0 with lastError := 9 },
        .values [.nil, .string "Bad file descriptor".toList, .integer 9]) :=
  (write_stub testPort (by decide) (streamWorld "ab".toList 0) 0
    { handle := 7, storage := true } rfl [.string "x".toList, .integer 3]).1

/-! ## C11: reading lines with their terminators -/

theorem rest_cons_advance (s : Stream) (c : Char) (r : Bytes) (h : s.rest = c :: r) :
    ({ s with pos := s.pos + 1 } : Stream).rest = r := by
  unfold Stream.rest at *
  simp only
  rw [← List.drop_drop, h]
  rfl

theorem stream_read_one (w : World Stream) (h : HANDLE) :
    w.native (streamEngine.CascReadFile w.eng h 1) =
      ({ w with eng := { w.eng with pos := w.eng.pos + (w.eng.rest.take 1).length } },
        (true, w.eng.rest.take 1)) := rfl

/-- One chunk of `read_line` on the stream engine either reaches the end of
the line or leaves a state from which the same end is reached, with fewer
bytes ahead. -/
theorem stream_chunk (h : HANDLE) : ∀ (k : Nat) (st : LineState Stream),
    read_line_chunk streamEngine h (k + 1) st = lineEnd st ∨
    ((read_line_chunk streamEngine h (k + 1) st).status = true ∧
      lineEnd (read_line_chunk streamEngine h (k + 1) st) = lineEnd st ∧
      (read_line_chunk streamEngine h (k + 1) st).character ≠ '\n' ∧
      (read_line_chunk streamEngine h (k + 1) st).w.eng.rest.length <
        st.w.eng.rest.length) := by
  intro k
  induction k with
  | zero =>
    intro st
    cases hrem : st.w.eng.rest with
    | nil =>
      left
      unfold read_line_chunk
      simp [stream_read_one, hrem, lineEnd, lineAdvance, lineChar, lineBody]
    | cons c r =>
      have hadv := rest_cons_advance st.w.eng c r hrem
      by_cases hc : c = '\n'
      · left
        unfold read_line_chunk
        simp [stream_read_one, hrem, lineEnd, lineAdvance, lineChar, lineBody, hc]
      · right
        unfold read_line_chunk
        simp only [stream_read_one, hrem, List.take_succ_cons, List.take_zero,
          List.length_singleton, List.headD_cons, hc, Bool.true_eq_false, false_or,
          List.length_cons, Nat.add_one_ne_zero, if_false, read_line_chunk]
        refine ⟨trivial, ?_, hc, ?_⟩
        · simp [lineEnd, hadv, hrem, lineAdvance, lineChar, lineBody, hc, Nat.add_assoc,
            Nat.add_comm 1]
        · simp [hadv]
  | succ n ih =>
    intro st
    cases hrem : st.w.eng.rest with
    | nil =>
      left
      unfold read_line_chunk
      simp [stream_read_one, hrem, lineEnd, lineAdvance, lineChar, lineBody]
    | cons c r =>
      have hadv := rest_cons_advance st.w.eng c r hrem
      by_cases hc : c = '\n'
      · left
        unfold read_line_chunk
        simp [stream_read_one, hrem, lineEnd, lineAdvance, lineChar, lineBody, hc]
      · have hstep : read_line_chunk streamEngine h (n + 1 + 1) st =
            read_line_chunk streamEngine h (n + 1)
              { w := { st.w with eng := { st.w.eng with pos := st.w.eng.pos + 1 } },
                character := c, status := true, error := st.w.lastError,
                line := st.line ++ [c] } := by
          conv_lhs => unfold read_line_chunk
          simp only [stream_read_one, hrem, List.take_succ_cons, List.take_zero,
            List.length_singleton, List.headD_cons, hc, Bool.true_eq_false, false_or,
            List.length_cons, Nat.add_one_ne_zero, if_false]
          rfl
        have hend : lineEnd
            { w := { st.w with eng := { st.w.eng with pos := st.w.eng.pos + 1 } },
              character := c, status := true, error := st.w.lastError,
              line := st.line ++ [c] } = lineEnd st := by
          simp [lineEnd, hadv, hrem, lineAdvance, lineChar, lineBody, hc, Nat.add_assoc,
            Nat.add_comm 1]
        rw [hstep]
        rcases ih { w := { st.w with eng := { st.w.eng with pos := st.w.eng.pos + 1 } },
                    character := c, status := true, error := st.w.lastError,
                    line := st.line ++ [c] } with hdone | ⟨h1, h2, h3, h4⟩
        · left
          rw [hdone, hend]
        · right
          refine ⟨h1, by rw [h2, hend], h3, ?_⟩
          simp only [hadv] at h4
          simp only [List.length_cons]
          omega

/-- The loops of `read_line` on the stream engine end at the end of the line,
given fuel for one chunk per byte ahead. -/
theorem stream_read_line_loop (P : Port) (hB : 0 < P.LUAL_BUFFERSIZE) (h : HANDLE) :
    ∀ (fuel : Nat) (st : LineState Stream), st.status = true → st.character ≠ '\n' →
      st.w.eng.rest.length < fuel →
      read_line_loop P streamEngine h fuel st = .ok (lineEnd st) := by
  obtain ⟨b, hb⟩ : ∃ b, P.LUAL_BUFFERSIZE = b + 1 := ⟨P.LUAL_BUFFERSIZE - 1, by omega⟩
  have hstop : ∀ (f : Nat) (st : LineState Stream),
      read_line_loop P streamEngine h f (lineEnd st) = .ok (lineEnd st) := by
    intro f st
    unfold read_line_loop
    simp [lineEnd]
  intro fuel
  induction fuel with
  | zero =>
    intro st _ _ hlen
    omega
  | succ f ih =>
    intro st hs hc hlen
    unfold read_line_loop
    simp only [hs, hc, ne_eq, not_false_eq_true, and_self, if_true, hb]
    rcases stream_chunk h b st with hdone | ⟨h1, h2, h3, h4⟩
    · rw [hdone]
      exact hstop f st
    · rw [ih _ h1 h3 (by omega), h2]

theorem line_spec : ∀ (rem : Bytes) (c0 : Char), c0 ≠ '\n' →
    (if lineChar rem c0 = '\n' then lineBody rem ++ ['\n'] else lineBody rem) =
      nextLine rem ∧
    lineAdvance rem = (nextLine rem).length := by
  intro rem
  induction rem with
  | nil =>
    intro c0 hc0
    simp [lineChar, lineBody, nextLine, lineAdvance, hc0]
  | cons c r ih =>
    intro c0 _
    by_cases hc : c = '\n'
    · simp [lineChar, lineBody, nextLine, lineAdvance, hc]
    · obtain ⟨h1, h2⟩ := ih c hc
      simp only [lineChar, lineBody, nextLine, lineAdvance, hc, if_false, List.length_cons,
        h2, and_true]
      rw [← h1]
      split <;> simp

theorem nextLine_eq_nil (rem : Bytes) : nextLine rem = [] ↔ rem = [] := by
  cases rem with
  | nil => simp [nextLine]
  | cons c r =>
    by_cases hc : c = '\n' <;> simp [nextLine, hc]

/-- The function `read_line` with the terminator kept, on the stream engine. -/
theorem stream_read_line_keep (P : Port) (hB : 0 < P.LUAL_BUFFERSIZE) (h : HANDLE)
    (fuel : Nat) (w : World Stream) (hfuel : w.eng.rest.length < fuel) :
    read_line P streamEngine fuel w h false =
      .ok ({ w with eng := { w.eng with
              pos := w.eng.pos + (nextLine w.eng.rest).length } },
           nextLine w.eng.rest, false) := by
  have h0 : Char.ofNat 0 ≠ '\n' := by decide
  obtain ⟨h1, h2⟩ := line_spec w.eng.rest (Char.ofNat 0) h0
  unfold read_line
  rw [stream_read_line_loop P hB h fuel _ rfl h0 hfuel]
  simp only [lineEnd, List.nil_append, true_and, World.SetLastError, h2]
  rw [← h1]
  by_cases hch : lineChar w.eng.rest (Char.ofNat 0) = '\n'
  · simp [hch]
  · simp [hch]

/-- One `read ("L")` on the stream engine: the next line with its terminator,
or `nil` when no byte is left. -/
theorem stream_read_L (P : Port) (hB : 0 < P.LUAL_BUFFERSIZE) (w : World Stream)
    (i : Nat) (file : CASC_File) (hfile : w.files[i]? = some file)
    (hopen : file.handle ≠ 0) (fuel : Nat) (hfuel : w.eng.rest.length < fuel) :
    file_read P streamEngine fuel w i [.string ['L']] =
      .ok ({ w with
              eng := { w.eng with pos := w.eng.pos + (nextLine w.eng.rest).length },
              lastError := P.ERROR_SUCCESS },
           .values [if w.eng.rest = [] then .nil else .string (nextLine w.eng.rest)]) := by
  have hsize : w.native (streamEngine.CascGetFileSize64 w.eng file.handle) =
      (w, (true, w.eng.content.length)) := rfl
  have hline := stream_read_line_keep P hB file.handle fuel
    (w.SetLastError P.ERROR_SUCCESS) hfuel
  unfold file_read
  simp only [hfile, hopen, if_false, hsize]
  simp only [file_read_loop, hline]
  by_cases hrest : w.eng.rest = []
  · have hnil : nextLine w.eng.rest = [] := (nextLine_eq_nil _).mpr hrest
    simp [World.SetLastError, file_read_results, hrest, hnil, nextLine]
  · have hnil : ¬ nextLine w.eng.rest = [] := fun hn => hrest ((nextLine_eq_nil _).mp hn)
    simp [World.SetLastError, file_read_results, hrest, hnil]

theorem splitL_eq_nil (rem : Bytes) : splitL rem = [] ↔ rem = [] := by
  cases rem with
  | nil => simp [splitL]
  | cons c r =>
    by_cases hc : c = '\n'
    · simp [splitL, hc]
    · cases hs : splitL r <;> simp [splitL, hc, hs]

/-- Cutting after every terminator: the first piece is the first line. -/
theorem splitL_cons : ∀ (rem : Bytes), rem ≠ [] →
    splitL rem = nextLine rem :: splitL (rem.drop (nextLine rem).length) := by
  intro rem
  induction rem with
  | nil => intro h; exact absurd rfl h
  | cons c r ih =>
    intro _
    by_cases hc : c = '\n'
    · simp [splitL, nextLine, hc]
    · by_cases hr : r = []
      · subst hr
        simp [splitL, nextLine, hc]
      · have h := ih hr
        simp only [splitL, nextLine, hc, if_false, List.length_cons, List.drop_succ_cons]
        rw [h]

theorem splitL_join : ∀ (rem : Bytes), (splitL rem).flatten = rem := by
  intro rem
  induction rem with
  | nil => simp [splitL]
  | cons c r ih =>
    by_cases hc : c = '\n'
    · simp [splitL, hc, ih]
    · cases hs : splitL r with
      | nil =>
        have hr : r = [] := (splitL_eq_nil r).mp hs
        simp [splitL, hc, hs, hr]
      | cons p ps =>
        rw [hs] at ih
        simp only [splitL, hc, if_false, hs, List.flatten_cons, List.cons_append]
        rw [← ih]
        simp

/-- No piece is empty, and a terminator can only be the last byte of a piece. -/
theorem splitL_pieces : ∀ (rem : Bytes) (p : Bytes), p ∈ splitL rem →
    p ≠ [] ∧ ∀ c ∈ p.dropLast, c ≠ '\n' := by
  intro rem
  induction rem with
  | nil => intro p hp; simp [splitL] at hp
  | cons c r ih =>
    intro p hp
    by_cases hc : c = '\n'
    · simp only [splitL, hc, if_true, List.mem_cons] at hp
      rcases hp with rfl | hp
      · simp
      · exact ih p hp
    · cases hs : splitL r with
      | nil =>
        simp only [splitL, hc, if_false, hs, List.mem_singleton] at hp
        subst hp
        simp
      | cons q qs =>
        simp only [splitL, hc, if_false, hs, List.mem_cons] at hp
        rcases hp with rfl | hp
        · obtain ⟨hq, hqc⟩ := ih q (by rw [hs]; exact List.mem_cons_self _ _)
          refine ⟨by simp, ?_⟩
          intro x hx
          obtain ⟨y, ys, rfl⟩ : ∃ y ys, q = y :: ys := by
            cases q with
            | nil => exact absurd rfl hq
            | cons y ys => exact ⟨y, ys, rfl⟩
          rw [List.dropLast_cons₂] at hx
          rcases List.mem_cons.mp hx with rfl | hx
          · exact hc
          · exact hqc x hx
        · exact ih p (by rw [hs]; exact List.mem_cons_of_mem _ hp)

/-- Every piece but the last ends with a terminator. -/
theorem splitL_terminated : ∀ (rem : Bytes) (p : Bytes), p ∈ (splitL rem).dropLast →
    p.getLast? = some '\n' := by
  intro rem
  induction rem with
  | nil => intro p hp; simp [splitL] at hp
  | cons c r ih =>
    intro p hp
    by_cases hc : c = '\n'
    · simp only [splitL, hc, if_true] at hp
      cases hs : splitL r with
      | nil => simp [hs] at hp
      | cons q qs =>
        rw [hs, List.dropLast_cons₂] at hp
        rcases List.mem_cons.mp hp with rfl | hp
        · simp
        · exact ih p (by rw [hs]; exact hp)
    · cases hs : splitL r with
      | nil => simp [splitL, hc, hs] at hp
      | cons q qs =>
        simp only [splitL, hc, if_false, hs] at hp
        cases qs with
        | nil => simp at hp
        | cons q2 qs2 =>
          rw [List.dropLast_cons₂] at hp
          rcases List.mem_cons.mp hp with rfl | hp
          · have hq := ih q (by rw [hs, List.dropLast_cons₂]; exact List.mem_cons_self _ _)
            obtain ⟨hqne, _⟩ := splitL_pieces r q (by rw [hs]; exact List.mem_cons_self _ _)
            obtain ⟨y, ys, rfl⟩ : ∃ y ys, q = y :: ys := by
              cases q with
              | nil => exact absurd rfl hqne
              | cons y ys => exact ⟨y, ys, rfl⟩
            rw [List.getLast?_cons_cons]
            exact hq
          · exact ih p (by rw [hs, List.dropLast_cons₂]; exact List.mem_cons_of_mem _ hp)

theorem nextLine_length_pos (rem : Bytes) (h : rem ≠ []) : 0 < (nextLine rem).length := by
  have hne : nextLine rem ≠ [] := fun hn => h ((nextLine_eq_nil rem).mp hn)
  exact List.length_pos.mpr hne

theorem rest_advance (s : Stream) (k : Nat) :
    ({ s with pos := s.pos + k } : Stream).rest = s.rest.drop k := by
  unfold Stream.rest
  simp only
  rw [List.drop_drop]

/-- Repeated `read ("L")` on the stream engine returns the pieces of the
remaining content, then `nil`. -/
theorem stream_read_L_collect (P : Port) (hB : 0 < P.LUAL_BUFFERSIZE) (i : Nat)
    (file : CASC_File) (hopen : file.handle ≠ 0) (fuel : Nat) :
    ∀ (n : Nat) (w : World Stream), w.files[i]? = some file →
      w.eng.rest.length < fuel → w.eng.rest.length < n →
      ∃ w', read_collect P streamEngine fuel i [.string ['L']] n w =
          .ok (w', splitL w.eng.rest, .values [.nil]) ∧
        w'.eng.rest = [] := by
  intro n
  induction n with
  | zero => intro w _ _ hn; omega
  | succ n ih =>
    intro w hfile hfuel hn
    have hstep := stream_read_L P hB w i file hfile hopen fuel hfuel
    unfold read_collect
    by_cases hrest : w.eng.rest = []
    · refine ⟨{ w with
                eng := { w.eng with pos := w.eng.pos + (nextLine w.eng.rest).length },
                lastError := P.ERROR_SUCCESS }, ?_, ?_⟩
      · rw [hstep]
        simp [hrest, splitL]
      · rw [rest_advance, hrest]
        rfl
    · have hpos := nextLine_length_pos w.eng.rest hrest
      have hlen : (w.eng.rest.drop (nextLine w.eng.rest).length).length <
          w.eng.rest.length := by
        have hne : 0 < w.eng.rest.length := List.length_pos.mpr hrest
        rw [List.length_drop]
        omega
      obtain ⟨w', hw', hend⟩ := ih
        { w with
          eng := { w.eng with pos := w.eng.pos + (nextLine w.eng.rest).length },
          lastError := P.ERROR_SUCCESS }
        hfile (by rw [rest_advance]; omega) (by rw [rest_advance]; omega)
      refine ⟨w', ?_, hend⟩
      rw [hstep]
      simp only [hrest, if_false, hw', rest_advance]
      rw [splitL_cons w.eng.rest hrest]

/-- C11: on an open file whose reads succeed, at any position, repeated
`read ("L")` calls return, up to the first `nil`, non-empty pieces whose
concatenation is the remaining content exactly; every piece but the last ends
with the terminator, a terminator is never inside a piece, and `nil` is
returned only when no byte remains: a call with bytes ahead returns a string,
and the calls end with the stream exhausted. -/
theorem read_L_round_trip (P : Port) (hB : 0 < P.LUAL_BUFFERSIZE) (w : World Stream)
    (i : Nat) (file : CASC_File) (hfile : w.files[i]? = some file)
    (hopen : file.handle ≠ 0) (fuel : Nat) (hfuel : w.eng.rest.length < fuel) (n : Nat)
    (hcalls : w.eng.rest.length < n) :
    (∃ w', read_collect P streamEngine fuel i [.string ['L']] n w =
        .ok (w', splitL w.eng.rest, .values [.nil]) ∧
      w'.eng.rest = []) ∧
    (splitL w.eng.rest).flatten = w.eng.rest ∧
    (∀ p ∈ splitL w.eng.rest, p ≠ [] ∧ ∀ c ∈ p.dropLast, c ≠ '\n') ∧
    (∀ p ∈ (splitL w.eng.rest).dropLast, p.getLast? = some '\n') ∧
    (w.eng.rest ≠ [] → ∃ w1, file_read P streamEngine fuel w i [.string ['L']] =
      .ok (w1, .values [.string (nextLine w.eng.rest)]) ∧ nextLine w.eng.rest ≠ []) := by
  refine ⟨stream_read_L_collect P hB i file hopen fuel n w hfile hfuel hcalls,
    splitL_join _, splitL_pieces _, splitL_terminated _, ?_⟩
  intro hrest
  refine ⟨{ w with
            eng := { w.eng with pos := w.eng.pos + (nextLine w.eng.rest).length },
            lastError := P.ERROR_SUCCESS }, ?_,
    fun hn => hrest ((nextLine_eq_nil _).mp hn)⟩
  rw [stream_read_L P hB w i file hfile hopen fuel hfuel]
  simp [hrest]

theorem read_L_round_trip_witness :
    ∃ w', read_collect testPort streamEngine 6 0 [.string ['L']] 6
        (streamWorld "ab\ncd".toList 0) =
      .ok (w', ["ab\n".toList, "cd".toList], .values [.nil]) ∧
      w'.eng.rest = [] :=
  (read_L_round_trip testPort (by decide) (streamWorld "ab\ncd".toList 0) 0
    { handle := 7, storage := true } rfl (by decide) 6 (by decide) 6 (by decide)).1

/-! ## C14: a first open that fails -/

/-- C14 at the failing inputs: on an unbound finder without a pattern, a
`CascFindFirstFile` that returns no cursor (with error code `2` on the first
engine, with `ERROR_SUCCESS` on the second) is taken for a success, since
`status = !!finder` tests the userdata pointer: the step registers the finder
under the `NULL` key and yields the unset file name as a result; it neither
ends the sequence nor raises. -/
theorem first_open_failure_yields_name :
    finder_iterator testPort flakyEngine 4 flakyWorld 0 none false =
      .ok ({ eng := 1, lastError := 2, storage := { handle := 1 }, files := [],
             finders := [{ handle := 0, storage := true }],
             registry := some [(0, .finder 0)] },
           .values [.string []]) ∧
    finder_iterator testPort (listEngine 0) 4 (listWorld []) 0 none false =
      .ok ({ eng := { names := [], cursor := [] }, lastError := 0,
             storage := { handle := 1 }, files := [],
             finders := [{ handle := 0, storage := true }],
             registry := some [(0, .finder 0)] },
           .values [.string []]) :=
  ⟨rfl, rfl⟩

/-- For every engine: when `CascFindFirstFile` returns no cursor on an unbound
finder without a pattern, the step yields the file name left in the find data
and registers the finder under the `NULL` key; the handle stays null. -/
theorem first_open_failure_general {σ : Type} (P : Port) (E : Engine σ) (w : World σ)
    (j : Nat) (finder : CASC_Finder) (t : Table) (plain : Bool)
    (hj : w.finders[j]? = some finder) (h0 : finder.handle = 0)
    (hs : finder.storage = true) (hreg : w.registry = some t)
    (hfail : (E.CascFindFirstFile w.eng w.storage.handle).val.1 = 0) (fuel : Nat)
    (hfuel : 0 < fuel) :
    ∃ w', finder_iterator P E fuel w j none plain =
        .ok (w', .values [.string (E.CascFindFirstFile w.eng w.storage.handle).val.2]) ∧
      w'.registry = some (t.rawset 0 (some (.finder j))) ∧
      w'.finders[j]? = some finder := by
  obtain ⟨f, rfl⟩ : ∃ f, fuel = f + 1 := ⟨fuel - 1, by omega⟩
  obtain ⟨fh, fs⟩ := finder
  simp only at h0 hs
  subst h0 hs
  have hlt := getElem?_lt hj
  refine ⟨{ eng := (E.CascFindFirstFile w.eng w.storage.handle).next,
            lastError := (E.CascFindFirstFile w.eng w.storage.handle).err.getD w.lastError,
            storage := w.storage, files := w.files,
            finders := w.finders.set j { handle := 0, storage := true },
            registry := some (t.rawset 0 (some (.finder j))) }, ?_, rfl, ?_⟩
  · unfold finder_iterator
    simp only [hj]
    unfold finder_iterator_loop
    simp only [hj, if_true, World.native, hfail, casc_registry_insert_finder,
      List.getElem?_set_self hlt, registry_insert, hreg]
    simp
  · simp only [List.getElem?_set_self hlt]

/-- With a pattern that rejects the unset name and an engine that never opens
a cursor, the loop of `finder_iterator` asks for the first entry again and
again: it does not return, whatever the fuel. -/
theorem first_open_failure_spins (P : Port) (e : Nat) (j : Nat) (p : Bytes)
    (plain : Bool) (hrej : P.string_find [] p plain = false) :
    ∀ (fuel : Nat) (w : World Listing) (t : Table),
      w.finders[j]? = some { handle := 0, storage := true } → w.registry = some t →
      w.eng.names = [] →
      finder_iterator_loop P (listEngine e) j (some p) plain fuel w =
        .error .diverge := by
  intro fuel
  induction fuel with
  | zero => intro w t _ _ _; rfl
  | succ f ih =>
    intro w t hj hreg hn
    have hlt := getElem?_lt hj
    have hfirst : (listEngine e).CascFindFirstFile w.eng w.storage.handle =
        { val := (0, []), err := some e, next := w.eng } := by
      cases hw : w.eng with
      | mk names cursor =>
        rw [hw] at hn
        simp only at hn
        subst hn
        rfl
    unfold finder_iterator_loop
    simp only [hj, if_true, World.native, hfirst, casc_registry_insert_finder,
      List.getElem?_set_self hlt, registry_insert, hreg]
    simp only [Bool.true_eq_false, if_false, hrej]
    exact ih _ (t.rawset 0 (some (.finder j))) (List.getElem?_set_self hlt) rfl hn

/-! ## C13: an exhausted finder -/

/-- Draining a bound finder of the list engine, with what the world is like
afterwards. -/
theorem list_drain_bound (P : Port) (j : Nat) (pattern : Option Bytes) (plain : Bool)
    (fuel : Nat) :
    ∀ (n : Nat) (c : List Bytes) (w : World Listing) (finder : CASC_Finder) (t : Table),
      w.finders[j]? = some finder → finder.handle ≠ 0 → finder.storage = true →
      w.registry = some t → w.eng.cursor = c → c.length < fuel → c.length < n →
      ∃ (w' : World Listing) (t' : Table),
        finder_collect P (listEngine P.ERROR_SUCCESS) fuel j pattern plain n w =
          .ok (w', c.filter (accepts P pattern plain), .values []) ∧
        w'.finders[j]? = some { finder with handle := 0 } ∧
        w'.registry = some t' ∧ w'.eng.names = w.eng.names := by
  intro n
  induction n with
  | zero => intro c w finder t _ _ _ _ _ _ hn; omega
  | succ n ih =>
    intro c w finder t hj hh hs hreg hc hfuel hn
    have hlt := getElem?_lt hj
    have hloop := list_loop_bound P P.ERROR_SUCCESS j pattern plain c fuel w finder
      hj hh hc hfuel
    unfold finder_collect
    rcases hd : c.dropWhile (fun n => !accepts P pattern plain n) with _ | ⟨m, post⟩
    · rw [hd] at hloop
      have hstep := list_iterator_of_loop P j pattern plain fuel w w finder finder t
        [] hj hj hh hs hreg hloop
      refine ⟨{ w with
                eng := { w.eng with cursor := [] }, lastError := P.ERROR_SUCCESS,
                registry := some (t.rawset finder.handle none),
                finders := w.finders.set j { finder with handle := 0 } }, _, ?_, ?_,
        rfl, rfl⟩
      · rw [hstep, filter_of_dropWhile_nil _ c hd]
      · simp [hlt]
    · rw [hd] at hloop
      have hstep := list_iterator_of_loop P j pattern plain fuel w w finder finder t
        (m :: post) hj hj hh hs hreg hloop
      obtain ⟨hfilter, hlen⟩ := filter_of_dropWhile_cons _ c m post hd
      obtain ⟨w', t', hw', hfin, hreg', hnames⟩ := ih post
        { w with eng := { w.eng with cursor := post } } finder t hj hh hs hreg rfl
        (by omega) (by omega)
      refine ⟨w', t', ?_, hfin, hreg', hnames⟩
      rw [hstep]
      simp only [hw', hfilter]

/-- Draining a finder with a null handle on the list engine: a cursor is
opened, the accepted names are yielded, and the finder ends with a null
handle again, the storage's entries and registry still in place. -/
theorem list_drain_unbound (P : Port) (j : Nat) (pattern : Option Bytes) (plain : Bool)
    (fuel : Nat) (n : Nat) (x : Bytes) (rest : List Bytes) (w : World Listing)
    (finder : CASC_Finder) (t : Table) (hj : w.finders[j]? = some finder)
    (hh : finder.handle = 0) (hs : finder.storage = true) (hreg : w.registry = some t)
    (hn : w.eng.names = x :: rest) (hfuel : (x :: rest).length < fuel)
    (hcalls : (x :: rest).length < n) :
    ∃ (w' : World Listing) (t' : Table),
      finder_collect P (listEngine P.ERROR_SUCCESS) fuel j pattern plain n w =
        .ok (w', (x :: rest).filter (accepts P pattern plain), .values []) ∧
      w'.finders[j]? = some finder ∧
      w'.registry = some t' ∧ w'.eng.names = x :: rest := by
  obtain ⟨k, rfl⟩ : ∃ k, n = k + 1 := ⟨n - 1, by simp at hcalls; omega⟩
  obtain ⟨fh, fs⟩ := finder
  simp only at hh hs
  subst hh hs
  have hlt := getElem?_lt hj
  have hloop := list_loop_unbound P P.ERROR_SUCCESS j pattern plain x rest fuel w
    { handle := 0, storage := true } t hj rfl rfl hreg hn hfuel
  have hsetb : (w.finders.set j { handle := 1, storage := true })[j]? =
      some { handle := 1, storage := true } := List.getElem?_set_self hlt
  unfold finder_collect
  rcases hd : (x :: rest).dropWhile (fun n => !accepts P pattern plain n) with
    _ | ⟨m, post⟩
  · rw [hd] at hloop
    have hstep := list_iterator_of_loop P j pattern plain fuel w
      { w with
        finders := w.finders.set j { handle := 1, storage := true },
        registry := some (t.rawset 1 (some (.finder j))) }
      { handle := 0, storage := true } { handle := 1, storage := true }
      (t.rawset 1 (some (.finder j)))
      [] hj hsetb Nat.one_ne_zero rfl rfl hloop
    refine ⟨{ w with
              eng := { w.eng with cursor := [] }, lastError := P.ERROR_SUCCESS,
              registry := some ((t.rawset 1 (some (.finder j))).rawset 1 none),
              finders := (w.finders.set j { handle := 1, storage := true }).set j
                { handle := 0, storage := true } }, _, ?_, ?_, rfl, hn⟩
    · rw [hstep, filter_of_dropWhile_nil _ (x :: rest) hd]
    · simp [hlt]
  · rw [hd] at hloop
    have hstep := list_iterator_of_loop P j pattern plain fuel w
      { w with
        finders := w.finders.set j { handle := 1, storage := true },
        registry := some (t.rawset 1 (some (.finder j))) }
      { handle := 0, storage := true } { handle := 1, storage := true }
      (t.rawset 1 (some (.finder j)))
      (m :: post) hj hsetb Nat.one_ne_zero rfl rfl hloop
    obtain ⟨hfilter, hlen⟩ := filter_of_dropWhile_cons _ (x :: rest) m post hd
    obtain ⟨w', t', hw', hfin, hreg', hnames⟩ := list_drain_bound P j pattern plain fuel
      k post
      { w with
        eng := { w.eng with cursor := post },
        finders := w.finders.set j { handle := 1, storage := true },
        registry := some (t.rawset 1 (some (.finder j))) }
      { handle := 1, storage := true } (t.rawset 1 (some (.finder j))) hsetb
      Nat.one_ne_zero rfl rfl rfl (by omega) (by simp at hlen hcalls; omega)
    refine ⟨w', t', ?_, hfin, hreg', by rw [hnames]; exact hn⟩
    rw [hstep]
    simp only [hw', hfilter]

/-- C13, as stated, fails: after the finder over the single entry `"a"` was
exhausted (it yielded `"a"`, then no result, and its handle is null), the
next call of its iterator opens a new cursor (the handle is `1` again) and
yields `"a"` once more. -/
theorem exhausted_finder_restarts :
    finder_collect testPort (listEngine 0) 4 0 none false 4 (listWorld ["a".toList]) =
      .ok ({ eng := { names := ["a".toList], cursor := [] }, lastError := 0,
             storage := { handle := 1 }, files := [],
             finders := [{ handle := 0, storage := true }], registry := some [] },
           ["a".toList], .values []) ∧
    finder_iterator testPort (listEngine 0) 4
        { eng := { names := ["a".toList], cursor := [] }, lastError := 0,
          storage := { handle := 1 }, files := [],
          finders := [{ handle := 0, storage := true }], registry := some [] }
        0 none false =
      .ok ({ eng := { names := ["a".toList], cursor := [] }, lastError := 0,
             storage := { handle := 1 }, files := [],
             finders := [{ handle := 1, storage := true }],
             registry := some [(1, .finder 0)] },
           .values [.string "a".toList]) :=
  ⟨rfl, rfl⟩

/-- C13, amended: a finder that has reached Closed has a null handle, which is
the Unbound state as well; while its storage is open, further calls of its
iterator open a new cursor, and on an engine that serves the entries again
the enumeration restarts: draining an exhausted finder once more yields the
same accepted names, each once and in engine order, and closes it again. -/
theorem closed_finder_restarts (P : Port) (names : List Bytes) (hne : names ≠ [])
    (pattern : Option Bytes) (plain : Bool) (w : World Listing) (j : Nat)
    (finder : CASC_Finder) (t : Table) (hj : w.finders[j]? = some finder)
    (hh : finder.handle = 0) (hs : finder.storage = true) (hreg : w.registry = some t)
    (hn : w.eng.names = names) (fuel : Nat) (hfuel : names.length < fuel) (n : Nat)
    (hcalls : names.length < n) :
    ∃ (w1 w2 : World Listing),
      finder_collect P (listEngine P.ERROR_SUCCESS) fuel j pattern plain n w =
        .ok (w1, names.filter (accepts P pattern plain), .values []) ∧
      w1.finders[j]? = some finder ∧
      finder_collect P (listEngine P.ERROR_SUCCESS) fuel j pattern plain n w1 =
        .ok (w2, names.filter (accepts P pattern plain), .values []) ∧
      w2.finders[j]? = some finder := by
  obtain ⟨x, rest, rfl⟩ : ∃ x rest, names = x :: rest := by
    cases names with
    | nil => exact absurd rfl hne
    | cons x rest => exact ⟨x, rest, rfl⟩
  obtain ⟨w1, t1, hc1, hf1, hr1, hn1⟩ := list_drain_unbound P j pattern plain fuel n x
    rest w finder t hj hh hs hreg hn hfuel hcalls
  obtain ⟨w2, t2, hc2, hf2, _, _⟩ := list_drain_unbound P j pattern plain fuel n x
    rest w1 finder t1 hf1 hh hs hr1 hn1 hfuel hcalls
  exact ⟨w1, w2, hc1, hf1, hc2, hf2⟩

theorem closed_finder_restarts_witness :
    ∃ (w1 w2 : World Listing),
      finder_collect testPort (listEngine testPort.ERROR_SUCCESS) 4 0
          (some ".txt".toList) false 4
          (listWorld ["a.txt".toList, "b.dat".toList, "ab.txt".toList]) =
        .ok (w1, ["a.txt".toList, "ab.txt".toList], .values []) ∧
      w1.finders[0]? = some { handle := 0, storage := true } ∧
      finder_collect testPort (listEngine testPort.ERROR_SUCCESS) 4 0
          (some ".txt".toList) false 4 w1 =
        .ok (w2, ["a.txt".toList, "ab.txt".toList], .values []) ∧
      w2.finders[0]? = some { handle := 0, storage := true } :=
  closed_finder_restarts testPort
    ["a.txt".toList, "b.dat".toList, "ab.txt".toList] (by decide)
    (some ".txt".toList) false
    (listWorld ["a.txt".toList, "b.dat".toList, "ab.txt".toList]) 0
    { handle := 0, storage := true } [] rfl rfl rfl rfl rfl 4 (by decide) 4 (by decide)

end Casclib
